import Mathlib

/-!
Verification of the TacBoard collaborative-whiteboard server.

The server (`server.js`) keeps one authoritative in-memory document
(strokes, arrows, tokens), processes socket events one at a time, and
supports recording a timestamped event timeline plus replaying it via
scheduled re-emissions.  This file gives a shallow embedding of that
server: the shared mutable state becomes an explicit `Srv` record, each
socket handler becomes a pure function `Srv → Srv × List Emission`, and
the single-threaded event loop becomes a fold of a `step` function over a
list of events.  Timers (`setTimeout` handles stored in `rep.timers`) are
modelled as an explicit pending-task list consumed by a dedicated
timer-firing step; the untracked 150 ms `replay-init` timer gets its own
pending list since `replay-stop` does not cancel it.

JavaScript specifics and how they are embedded:
* `state.tokens` is a string-keyed object; it is modelled as an
  association list of tokens keyed by the `id` field, with the JS
  semantics of key assignment (replace the entry in place if the key is
  present, append otherwise) and `delete` (filter the key out).
* Template-string IDs such as `` t${n} `` are the character `t` followed
  by the decimal digits of `n`; `decDigs` below computes exactly those
  decimal digits, so `tokId`/`arrId` are faithful to the produced string.
* `Date.now()` is threaded through every step as an explicit `now : Nat`.
* The human-readable recording/preset names built from
  `new Date().toLocaleString()` are abstracted as constant strings; no
  verified property depends on them.
* Persistence (PostgreSQL / JSON file) is fire-and-forget in the source
  and does not feed back into the in-memory path, so it is not modelled.
* `join` / `disconnect` / `cursor-move` / `draw-move` only touch the user
  registry or emit ephemeral broadcasts; they never mutate the document,
  recorder, replay or recordings state, so they are omitted from the
  event alphabet.
-/

namespace TacBoard

/-! ### Decimal digit strings for template-string IDs -/

/-- Decimal digits of a natural number, most significant first
(the digit list that a JS template string `${n}` prints). -/
def decDigs (n : Nat) : List Nat :=
  if h : n < 10 then [n]
  else
    have : n / 10 < n := Nat.div_lt_self (by omega) (by omega)
    decDigs (n / 10) ++ [n % 10]

/-- Character for one decimal digit. -/
def digChar (d : Nat) : Char := Char.ofNat (48 + d)

/-- The server-generated token ID `` t${n} ``. -/
def tokId (n : Nat) : String := String.mk ('t' :: (decDigs n).map digChar)

/-- The server-generated arrow ID `` ar${n} ``. -/
def arrId (n : Nat) : String :=
  String.mk ('a' :: 'r' :: (decDigs n).map digChar)

/-! ### Data model -/

/-- A point in the board's logical coordinate space. -/
structure Point where
  x : Int
  y : Int
deriving Repr, DecidableEq

/-- A finished stroke as stored by the server.  The `id` is
client-supplied and may be absent; `socketId` is overwritten by the
server with the sender's connection ID on `stroke-done`. -/
structure Stroke where
  id : Option String
  points : List Point
  color : String
  width : Nat
  tool : String
  socketId : String
deriving Repr, DecidableEq

/-- A token; its `id` is server-assigned at creation. -/
structure Token where
  id : String
  x : Int
  y : Int
  color : String
  label : String
  shape : String
deriving Repr, DecidableEq

/-- A finished arrow; the stored `id` is server-assigned, while the
incoming payload carries the client's temporary `id`. -/
structure Arrow where
  id : Option String
  x1 : Int
  y1 : Int
  x2 : Int
  y2 : Int
  color : String
  width : Nat
  style : String
  socketId : String
deriving Repr, DecidableEq

/-- A deep copy of the document (strokes, arrows, tokens); in the pure
model a snapshot is simply the value of the three collections. -/
structure Snap where
  strokes : List Stroke
  arrows : List Arrow
  tokens : List Token
deriving Repr, DecidableEq

def emptySnap : Snap := ⟨[], [], []⟩

/-- Summary row of `getRecordingsList()`. -/
structure RecMeta where
  id : Nat
  name : String
  timestamp : Nat
  duration : Nat
  eventCount : Nat
deriving Repr, DecidableEq

/-- Summary row of `getBoardPresetsList()`. -/
structure PresetMeta where
  id : Nat
  name : String
  timestamp : Nat
  strokeCount : Nat
  arrowCount : Nat
  tokenCount : Nat
deriving Repr, DecidableEq

/-- Closed union of event payloads sent between server and clients. -/
inductive Payload where
  | pStroke (s : Stroke)
  | pIds (ids : List String)
  | pToken (t : Token)
  | pMove (id : String) (x : Int) (y : Int)
  | pId (id : String)
  | pRelabel (id : String) (label : String)
  | pArrow (a : Arrow)
  | pConfirm (tempId : Option String) (a : Arrow)
  | pEmpty
  | pSnap (strokes : List Stroke) (arrows : List Arrow) (tokens : List Token)
  | pReplayStarted (duration : Nat) (recId : Nat)
  | pRecList (l : List RecMeta)
  | pPresetList (l : List PresetMeta)
  | pPresetSaved (id : Nat) (name : String)
deriving Repr, DecidableEq

/-- One entry of a recording timeline:
`{ t: Date.now() - rec.start, event, data }`. -/
structure Entry where
  t : Nat
  event : String
  data : Payload
deriving Repr, DecidableEq

/-- A saved recording. -/
structure Recording where
  id : Nat
  name : String
  timestamp : Nat
  duration : Nat
  eventCount : Nat
  snapshot : Snap
  timeline : List Entry
deriving Repr, DecidableEq

/-- A saved board preset. -/
structure Preset where
  id : Nat
  name : String
  timestamp : Nat
  strokes : List Stroke
  arrows : List Arrow
  tokens : List Token
deriving Repr, DecidableEq

/-- The recorder state `rec`. -/
structure RecState where
  active : Bool
  start : Nat
  snapshot : Snap
  timeline : List Entry
deriving Repr, DecidableEq

/-- A pending `setTimeout` callback tracked in `rep.timers`: either the
delayed re-emission of one timeline entry, or the terminal
`finishReplay` call.  The `time` field is the scheduled delay. -/
inductive Task where
  | emitT (time : Nat) (event : String) (data : Payload)
  | finishT (time : Nat)
deriving Repr, DecidableEq

/-- The replay state `rep`. -/
structure RepState where
  active : Bool
  timers : List Task
  preSnap : Snap
  currentRecId : Option Nat
deriving Repr, DecidableEq

/-- The whole process-wide mutable server state.  The JS globals `rec`
and `rep` become the fields `recS` and `rep` (the name `rec` itself is
reserved by Lean for the structure recursor). -/
structure Srv where
  strokes : List Stroke
  arrows : List Arrow
  tokens : List Token
  nextTokenId : Nat
  nextArrowId : Nat
  recS : RecState
  rep : RepState
  recordings : List Recording
  nextRecId : Nat
  boardPresets : List Preset
  nextPresetId : Nat
  pendingInit : List (Nat × Payload)
deriving Repr, DecidableEq

/-- The state at server start (before any event). -/
def srvInit : Srv :=
  { strokes := []
    arrows := []
    tokens := []
    nextTokenId := 1
    nextArrowId := 1
    recS := { active := false, start := 0, snapshot := emptySnap, timeline := [] }
    rep := { active := false, timers := [], preSnap := emptySnap, currentRecId := none }
    recordings := []
    nextRecId := 1
    boardPresets := []
    nextPresetId := 1
    pendingInit := [] }

/-- Destination of an emitted message: `io.emit` (all), a
`socket.broadcast.emit` (everyone but the origin), or a `socket.emit`
(origin only). -/
inductive Target where
  | all
  | others
  | origin
deriving Repr, DecidableEq

/-- One outbound message produced while handling an event. -/
structure Emission where
  target : Target
  event : String
  data : Payload
deriving Repr, DecidableEq

/-! ### Server operations (the socket handlers of `server.js`) -/

/-- JS `recordEvent(event, data)`: while a recording is active, append a
timeline entry stamped relative to the recording start instant. -/
def recordEvent (now : Nat) (event : String) (data : Payload) (s : Srv) : Srv :=
  if s.recS.active then
    { s with recS := { s.recS with
        timeline := s.recS.timeline ++ [⟨now - s.recS.start, event, data⟩] } }
  else s

/-- JS `snapState()`: a deep copy of the current document. -/
def snapState (s : Srv) : Snap := ⟨s.strokes, s.arrows, s.tokens⟩

/-- JS `getRecordingsList()`. -/
def getRecordingsList (rs : List Recording) : List RecMeta :=
  rs.map (fun r => ⟨r.id, r.name, r.timestamp, r.duration, r.eventCount⟩)

/-- JS `getBoardPresetsList()`. -/
def getBoardPresetsList (ps : List Preset) : List PresetMeta :=
  ps.map (fun p =>
    ⟨p.id, p.name, p.timestamp, p.strokes.length, p.arrows.length,
      p.tokens.length⟩)

/-- JS `finishReplay()`: clear every pending timer, leave the Replaying
state, restore the document from the pre-replay snapshot, and broadcast
the board-clear, the restored snapshot and the completion signal. -/
def finishReplay (s : Srv) : Srv × List Emission :=
  let sn := s.rep.preSnap
  ( { s with
      rep := { active := false, timers := [], preSnap := sn,
               currentRecId := none },
      strokes := sn.strokes,
      arrows := sn.arrows,
      tokens := sn.tokens },
    [ ⟨.all, "clear-board", .pEmpty⟩,
      ⟨.all, "tokens-cleared", .pEmpty⟩,
      ⟨.all, "replay-restore", .pSnap sn.strokes sn.arrows sn.tokens⟩,
      ⟨.all, "replay-done", .pEmpty⟩ ] )

/-- JS object key assignment `state.tokens[t.id] = t`: replace the entry
in place when the key is present, append otherwise. -/
def setToken : List Token → Token → List Token
  | [], t => [t]
  | u :: rest, t => if u.id = t.id then t :: rest else u :: setToken rest t

/-- JS object lookup `state.tokens[id]`. -/
def findToken (ts : List Token) (id : String) : Option Token :=
  ts.find? (fun t => t.id == id)

/-- In-place field mutation of the token stored under a key
(for example `state.tokens[id].x = x`): update the first entry whose key
matches (object keys are unique, so at most one does). -/
def updateToken (ts : List Token) (id : String) (f : Token → Token) :
    List Token :=
  match ts with
  | [] => []
  | t :: rest => if t.id = id then f t :: rest else t :: updateToken rest id f

/-- JS `findIndex` + `splice(idx, 1)` on the stroke array: remove the
first stroke whose `id` matches. -/
def removeFirstStroke : List Stroke → String → List Stroke
  | [], _ => []
  | st :: rest, id =>
      if st.id = some id then rest else st :: removeFirstStroke rest id

/-- JS `findIndex` + `splice(idx, 1)` on the arrow array. -/
def removeFirstArrow : List Arrow → String → List Arrow
  | [], _ => []
  | a :: rest, id =>
      if a.id = some id then rest else a :: removeFirstArrow rest id

/-- Handler for `stroke-done`: tag the stroke with the sender, store it,
broadcast it to the other connections and record it. -/
def hStrokeDone (origin : String) (now : Nat) (stroke : Stroke) (s : Srv) :
    Srv × List Emission :=
  let saved := { stroke with socketId := origin }
  let s1 := { s with strokes := s.strokes ++ [saved] }
  (recordEvent now "stroke-done" (.pStroke saved) s1,
   [⟨.others, "stroke-done", .pStroke saved⟩])

/-- Handler for `stroke-remove`: remove each listed ID in turn, then
broadcast the removal to everyone and record it. -/
def hStrokeRemove (now : Nat) (ids : List String) (s : Srv) :
    Srv × List Emission :=
  let s1 := { s with strokes := ids.foldl removeFirstStroke s.strokes }
  (recordEvent now "stroke-remove" (.pIds ids) s1,
   [⟨.all, "stroke-remove", .pIds ids⟩])

/-- Handler for `token-add`: assign the next server token ID, store the
token under it, broadcast to everyone and record. -/
def hTokenAdd (now : Nat) (tok : Token) (s : Srv) : Srv × List Emission :=
  let newToken := { tok with id := tokId s.nextTokenId }
  let s1 := { s with tokens := setToken s.tokens newToken,
                     nextTokenId := s.nextTokenId + 1 }
  (recordEvent now "token-add" (.pToken newToken) s1,
   [⟨.all, "token-add", .pToken newToken⟩])

/-- Handler for `token-move`: only when the token exists, move it,
broadcast to the others and record. -/
def hTokenMove (now : Nat) (id : String) (x y : Int) (s : Srv) :
    Srv × List Emission :=
  match findToken s.tokens id with
  | some _ =>
      let s1 := { s with
        tokens := updateToken s.tokens id (fun t => { t with x := x, y := y }) }
      (recordEvent now "token-move" (.pMove id x y) s1,
       [⟨.others, "token-move", .pMove id x y⟩])
  | none => (s, [])

/-- Handler for `token-remove`: delete the key (a no-op when absent),
then broadcast to everyone and record unconditionally. -/
def hTokenRemove (now : Nat) (id : String) (s : Srv) : Srv × List Emission :=
  let s1 := { s with tokens := s.tokens.filter (fun t => t.id != id) }
  (recordEvent now "token-remove" (.pId id) s1,
   [⟨.all, "token-remove", .pId id⟩])

/-- Handler for `token-relabel`: relabel when present, then broadcast to
everyone and record unconditionally. -/
def hTokenRelabel (now : Nat) (id label : String) (s : Srv) :
    Srv × List Emission :=
  let s1 := { s with
    tokens := updateToken s.tokens id (fun t => { t with label := label }) }
  (recordEvent now "token-relabel" (.pRelabel id label) s1,
   [⟨.all, "token-relabel", .pRelabel id label⟩])

/-- Handler for `arrow-done`: assign the canonical server arrow ID, tag
the sender, store it, broadcast the canonical arrow to the others, and
send the origin a private `arrow-confirmed` pairing its temporary ID with
the canonical arrow. -/
def hArrowDone (origin : String) (now : Nat) (arrow : Arrow) (s : Srv) :
    Srv × List Emission :=
  let saved := { arrow with id := some (arrId s.nextArrowId),
                            socketId := origin }
  let s1 := { s with arrows := s.arrows ++ [saved],
                     nextArrowId := s.nextArrowId + 1 }
  (recordEvent now "arrow-done" (.pArrow saved) s1,
   [⟨.others, "arrow-done", .pArrow saved⟩,
    ⟨.origin, "arrow-confirmed", .pConfirm arrow.id saved⟩])

/-- Handler for `arrow-remove`. -/
def hArrowRemove (now : Nat) (ids : List String) (s : Srv) :
    Srv × List Emission :=
  let s1 := { s with arrows := ids.foldl removeFirstArrow s.arrows }
  (recordEvent now "arrow-remove" (.pIds ids) s1,
   [⟨.all, "arrow-remove", .pIds ids⟩])

/-- Handler for `clear-board`: wipe strokes, arrows and tokens. -/
def hClearBoard (now : Nat) (s : Srv) : Srv × List Emission :=
  let s1 := { s with strokes := [], arrows := [], tokens := [] }
  let s2 := recordEvent now "clear-board" .pEmpty s1
  (recordEvent now "tokens-cleared" .pEmpty s2,
   [⟨.all, "clear-board", .pEmpty⟩, ⟨.all, "tokens-cleared", .pEmpty⟩])

/-- Handler for `clear-drawings`: wipe strokes and arrows, keep tokens. -/
def hClearDrawings (now : Nat) (s : Srv) : Srv × List Emission :=
  let s1 := { s with strokes := [], arrows := [] }
  (recordEvent now "clear-board" .pEmpty s1,
   [⟨.all, "clear-board", .pEmpty⟩])

/-- Handler for `recording-start`: rejected while recording or replaying;
otherwise arm the recorder with a fresh timeline and a snapshot. -/
def hRecordingStart (now : Nat) (s : Srv) : Srv × List Emission :=
  if s.recS.active || s.rep.active then (s, [])
  else
    ({ s with recS := { active := true, start := now,
                        snapshot := snapState s, timeline := [] } },
     [⟨.all, "recording-started", .pEmpty⟩])

/-- Finalized duration of a timeline: the last entry's offset, 0 when
empty. -/
def recDuration (tl : List Entry) : Nat :=
  match tl.getLast? with
  | some e => e.t
  | none => 0

/-- Handler for `recording-stop`: a no-op when idle; otherwise assemble
the Recording (the name built from the locale-formatted date is
abstracted as a constant string) and announce the updated list. -/
def hRecordingStop (now : Nat) (s : Srv) : Srv × List Emission :=
  if s.recS.active then
    let savedRec : Recording :=
      { id := s.nextRecId,
        name := "Recording",
        timestamp := now,
        duration := recDuration s.recS.timeline,
        eventCount := s.recS.timeline.length,
        snapshot := s.recS.snapshot,
        timeline := s.recS.timeline }
    let s1 := { s with recS := { s.recS with active := false },
                       recordings := s.recordings ++ [savedRec],
                       nextRecId := s.nextRecId + 1 }
    (s1,
     [⟨.all, "recording-saved", .pRecList (getRecordingsList s1.recordings)⟩])
  else (s, [])

/-- Handler for `replay-start`: rejected only while already replaying or
when the ID is unknown; otherwise capture the pre-replay snapshot, swap
the document to the recording's snapshot, announce the replay, queue the
untracked 150 ms `replay-init` hydration, and schedule one tracked timer
per timeline entry (at offset + 350 ms) plus the terminal `finishReplay`
timer (at duration + 900 ms). -/
def hReplayStart (recId : Nat) (s : Srv) : Srv × List Emission :=
  if s.rep.active then (s, [])
  else
    match s.recordings.find? (fun r => r.id == recId) with
    | none => (s, [])
    | some recording =>
        let s1 := { s with
          rep := { active := true,
                   timers := recording.timeline.map
                       (fun e => Task.emitT (e.t + 350) e.event e.data)
                     ++ [Task.finishT (recording.duration + 900)],
                   preSnap := snapState s,
                   currentRecId := some recId },
          strokes := recording.snapshot.strokes,
          arrows := recording.snapshot.arrows,
          tokens := recording.snapshot.tokens,
          pendingInit := s.pendingInit ++
            [(150, Payload.pSnap recording.snapshot.strokes
                recording.snapshot.arrows recording.snapshot.tokens)] }
        (s1, [⟨.all, "clear-board", .pEmpty⟩,
              ⟨.all, "tokens-cleared", .pEmpty⟩,
              ⟨.all, "replay-started",
                .pReplayStarted recording.duration recId⟩])

/-- Handler for `replay-stop`. -/
def hReplayStop (s : Srv) : Srv × List Emission :=
  if s.rep.active then finishReplay s else (s, [])

/-- Fire the next still-pending replay timer.  Timers were scheduled in
nondecreasing delay order with the terminal callback last, so the head of
the tracked list is always the next to fire; a fired timer is removed
from the pending list (JS: `clearTimeout` on a fired handle is a no-op). -/
def fireTimer (s : Srv) : Srv × List Emission :=
  match s.rep.timers with
  | [] => (s, [])
  | Task.emitT _ ev d :: rest =>
      ({ s with rep := { s.rep with timers := rest } }, [⟨.all, ev, d⟩])
  | Task.finishT _ :: rest =>
      finishReplay { s with rep := { s.rep with timers := rest } }

/-- Fire the earliest pending untracked 150 ms `replay-init` timer. -/
def fireInit (s : Srv) : Srv × List Emission :=
  match s.pendingInit with
  | [] => (s, [])
  | (_, p) :: rest =>
      ({ s with pendingInit := rest }, [⟨.all, "replay-init", p⟩])

/-- Handler for `get-recordings`. -/
def hGetRecordings (s : Srv) : Srv × List Emission :=
  (s, [⟨.origin, "recordings-list", .pRecList (getRecordingsList s.recordings)⟩])

/-- Rename the first recording whose ID matches. -/
def renameRec : List Recording → Nat → String → List Recording
  | [], _, _ => []
  | r :: rest, recId, nn =>
      if r.id = recId then { r with name := nn } :: rest
      else r :: renameRec rest recId nn

/-- Handler for `rename-recording`. -/
def hRenameRecording (recId : Nat) (newName : String) (s : Srv) :
    Srv × List Emission :=
  if (s.recordings.find? (fun r => r.id == recId)).isSome then
    let rs := renameRec s.recordings recId newName
    ({ s with recordings := rs },
     [⟨.all, "recordings-list", .pRecList (getRecordingsList rs)⟩])
  else (s, [])

/-- JS `findIndex` + `splice(idx, 1)` on the recordings array. -/
def removeFirstRec : List Recording → Nat → List Recording
  | [], _ => []
  | r :: rest, recId =>
      if r.id = recId then rest else r :: removeFirstRec rest recId

/-- Handler for `delete-recording`. -/
def hDeleteRecording (recId : Nat) (s : Srv) : Srv × List Emission :=
  if (s.recordings.find? (fun r => r.id == recId)).isSome then
    let rs := removeFirstRec s.recordings recId
    ({ s with recordings := rs },
     [⟨.all, "recordings-list", .pRecList (getRecordingsList rs)⟩])
  else (s, [])

/-- Handler for `save-preset` (the `name || default` fallback string is
abstracted into the `name` argument). -/
def hSavePreset (now : Nat) (name : String) (s : Srv) : Srv × List Emission :=
  let preset : Preset :=
    { id := s.nextPresetId, name := name, timestamp := now,
      strokes := s.strokes, arrows := s.arrows, tokens := s.tokens }
  let s1 := { s with boardPresets := s.boardPresets ++ [preset],
                     nextPresetId := s.nextPresetId + 1 }
  (s1,
   [⟨.all, "presets-list", .pPresetList (getBoardPresetsList s1.boardPresets)⟩,
    ⟨.origin, "preset-saved", .pPresetSaved preset.id preset.name⟩])

/-- Handler for `load-preset`. -/
def hLoadPreset (presetId : Nat) (s : Srv) : Srv × List Emission :=
  match s.boardPresets.find? (fun p => p.id == presetId) with
  | none => (s, [])
  | some preset =>
      ({ s with strokes := preset.strokes, arrows := preset.arrows,
                tokens := preset.tokens },
       [⟨.all, "clear-board", .pEmpty⟩,
        ⟨.all, "tokens-cleared", .pEmpty⟩,
        ⟨.all, "preset-loaded",
          .pSnap preset.strokes preset.arrows preset.tokens⟩])

/-- Rename the first preset whose ID matches. -/
def renamePre : List Preset → Nat → String → List Preset
  | [], _, _ => []
  | p :: rest, presetId, nn =>
      if p.id = presetId then { p with name := nn } :: rest
      else p :: renamePre rest presetId nn

/-- Handler for `rename-preset`. -/
def hRenamePreset (presetId : Nat) (newName : String) (s : Srv) :
    Srv × List Emission :=
  if (s.boardPresets.find? (fun p => p.id == presetId)).isSome then
    let ps := renamePre s.boardPresets presetId newName
    ({ s with boardPresets := ps },
     [⟨.all, "presets-list", .pPresetList (getBoardPresetsList ps)⟩])
  else (s, [])

/-- JS `findIndex` + `splice(idx, 1)` on the presets array. -/
def removeFirstPre : List Preset → Nat → List Preset
  | [], _ => []
  | p :: rest, presetId =>
      if p.id = presetId then rest else p :: removeFirstPre rest presetId

/-- Handler for `delete-preset`. -/
def hDeletePreset (presetId : Nat) (s : Srv) : Srv × List Emission :=
  if (s.boardPresets.find? (fun p => p.id == presetId)).isSome then
    let ps := removeFirstPre s.boardPresets presetId
    ({ s with boardPresets := ps },
     [⟨.all, "presets-list", .pPresetList (getBoardPresetsList ps)⟩])
  else (s, [])

/-- Handler for `get-presets`. -/
def hGetPresets (s : Srv) : Srv × List Emission :=
  (s, [⟨.origin, "presets-list", .pPresetList (getBoardPresetsList s.boardPresets)⟩])

/-! ### The event loop -/

/-- The alphabet of state-relevant inbound events, each carrying the
originating connection ID where the handler uses it, and the `Date.now()`
reading where the handler reads the clock.  `timerFire` and
`replayInitFire` are the two kinds of timer callbacks. -/
inductive Ev where
  | strokeDone (origin : String) (now : Nat) (stroke : Stroke)
  | strokeRemove (now : Nat) (ids : List String)
  | tokenAdd (now : Nat) (tok : Token)
  | tokenMove (now : Nat) (id : String) (x y : Int)
  | tokenRemove (now : Nat) (id : String)
  | tokenRelabel (now : Nat) (id : String) (label : String)
  | arrowDone (origin : String) (now : Nat) (arrow : Arrow)
  | arrowRemove (now : Nat) (ids : List String)
  | clearBoard (now : Nat)
  | clearDrawings (now : Nat)
  | recordingStart (now : Nat)
  | recordingStop (now : Nat)
  | replayStart (recId : Nat)
  | replayStop
  | timerFire
  | replayInitFire
  | getRecordings
  | renameRecording (recId : Nat) (newName : String)
  | deleteRecording (recId : Nat)
  | savePreset (now : Nat) (name : String)
  | loadPreset (presetId : Nat)
  | renamePreset (presetId : Nat) (newName : String)
  | deletePreset (presetId : Nat)
  | getPresets
deriving Repr, DecidableEq

/-- One atomic turn of the single-threaded event loop. -/
def step : Ev → Srv → Srv × List Emission
  | .strokeDone o n st, s => hStrokeDone o n st s
  | .strokeRemove n ids, s => hStrokeRemove n ids s
  | .tokenAdd n t, s => hTokenAdd n t s
  | .tokenMove n id x y, s => hTokenMove n id x y s
  | .tokenRemove n id, s => hTokenRemove n id s
  | .tokenRelabel n id lb, s => hTokenRelabel n id lb s
  | .arrowDone o n a, s => hArrowDone o n a s
  | .arrowRemove n ids, s => hArrowRemove n ids s
  | .clearBoard n, s => hClearBoard n s
  | .clearDrawings n, s => hClearDrawings n s
  | .recordingStart n, s => hRecordingStart n s
  | .recordingStop n, s => hRecordingStop n s
  | .replayStart recId, s => hReplayStart recId s
  | .replayStop, s => hReplayStop s
  | .timerFire, s => fireTimer s
  | .replayInitFire, s => fireInit s
  | .getRecordings, s => hGetRecordings s
  | .renameRecording recId nn, s => hRenameRecording recId nn s
  | .deleteRecording recId, s => hDeleteRecording recId s
  | .savePreset n nm, s => hSavePreset n nm s
  | .loadPreset pid, s => hLoadPreset pid s
  | .renamePreset pid nn, s => hRenamePreset pid nn s
  | .deletePreset pid, s => hDeletePreset pid s
  | .getPresets, s => hGetPresets s

/-- The state after one turn, outputs discarded. -/
def stepS (s : Srv) (e : Ev) : Srv := (step e s).1

/-- Run a list of events from a state. -/
def run (es : List Ev) (s : Srv) : Srv := es.foldl stepS s

/-! ### Client-side stroke emission (public/app.js) -/

/-- The `pointerup` handler of `public/app.js`: a `stroke-done` is
emitted only when the captured pointer path has at least two points, and
the emitted stroke's points are exactly the captured path (the draw and
composite-erase branches share this guard; they differ only in tool,
color and width). -/
def clientStrokeDone (myId : String) (strokeSeq : Nat) (tool : String)
    (currentPath : List Point) (color : String) (width : Nat) :
    Option Stroke :=
  if 2 ≤ currentPath.length then
    some { id := some (String.append myId
             (String.mk ('-' :: (decDigs (strokeSeq + 1)).map digChar))),
           points := currentPath, color := color, width := width,
           tool := tool, socketId := myId }
  else none

/-! ### Direct document-store stroke operations (spec side of C3) -/

/-- One recorded stroke operation: an `addStroke` (a `stroke-done` from
some connection) or a `removeStrokes(ids)` (a `stroke-remove`). -/
inductive StrokeOp where
  | add (origin : String) (now : Nat) (st : Stroke)
  | remove (now : Nat) (ids : List String)
deriving Repr, DecidableEq

/-- The socket event corresponding to a stroke operation. -/
def opEv : StrokeOp → Ev
  | .add origin now st => .strokeDone origin now st
  | .remove now ids => .strokeRemove now ids

/-- Applying one stroke operation directly to a stroke collection
(`addStroke` appends the sender-tagged stroke; `removeStrokes` removes
each listed ID in turn).  This is the spec's "applying the same sequence
directly" side of the replay-determinism property. -/
def applyOp (strokes : List Stroke) : StrokeOp → List Stroke
  | .add origin _ st => strokes ++ [{ st with socketId := origin }]
  | .remove _ ids => ids.foldl removeFirstStroke strokes

/-! ### Invariants -/

/-- Every token ID was issued by the server counter (is `tokId k` for
some `k` below the bound) and no two tokens share an ID. -/
def TokOk (n : Nat) (ts : List Token) : Prop :=
  (∀ t ∈ ts, ∃ k, k < n ∧ t.id = tokId k) ∧
  (ts.map (fun t => t.id)).Nodup

/-- Every arrow ID was issued by the server counter. -/
def ArrOk (m : Nat) (l : List Arrow) : Prop :=
  ∀ a ∈ l, ∃ k, k < m ∧ a.id = some (arrId k)

/-- Server-ID invariant over every place a token or arrow collection can
be restored from: the live document, the recorder's base snapshot, the
pre-replay snapshot, saved recordings and saved presets. -/
def IdInv (s : Srv) : Prop :=
  TokOk s.nextTokenId s.tokens ∧
  TokOk s.nextTokenId s.recS.snapshot.tokens ∧
  TokOk s.nextTokenId s.rep.preSnap.tokens ∧
  (∀ r ∈ s.recordings, TokOk s.nextTokenId r.snapshot.tokens) ∧
  (∀ p ∈ s.boardPresets, TokOk s.nextTokenId p.tokens) ∧
  ArrOk s.nextArrowId s.arrows ∧
  ArrOk s.nextArrowId s.recS.snapshot.arrows ∧
  ArrOk s.nextArrowId s.rep.preSnap.arrows ∧
  (∀ r ∈ s.recordings, ArrOk s.nextArrowId r.snapshot.arrows) ∧
  (∀ p ∈ s.boardPresets, ArrOk s.nextArrowId p.arrows)

/-- Every stroke in the collection has at least two points. -/
def PtsOk (l : List Stroke) : Prop := ∀ st ∈ l, 2 ≤ st.points.length

/-- Stroke-points invariant over every place a stroke collection can be
restored from. -/
def PtsInv (s : Srv) : Prop :=
  PtsOk s.strokes ∧
  PtsOk s.recS.snapshot.strokes ∧
  PtsOk s.rep.preSnap.strokes ∧
  (∀ r ∈ s.recordings, PtsOk r.snapshot.strokes) ∧
  (∀ p ∈ s.boardPresets, PtsOk p.strokes)

/-- An event whose `stroke-done` payload (if any) has at least two
points — what the repository's own client always sends. -/
def goodStrokeEv : Ev → Prop
  | .strokeDone _ _ st => 2 ≤ st.points.length
  | _ => True

/-! ### Concrete example values (used by witnesses and counterexamples) -/

/-- A sample token payload (the server overwrites the `id`). -/
def tokEx : Token :=
  { id := "", x := 3, y := 4, color := "red", label := "A", shape := "marker" }

/-- A sample two-point stroke payload. -/
def strokeEx : Stroke :=
  { id := some "c1-1", points := [⟨0, 0⟩, ⟨5, 5⟩], color := "blue",
    width := 3, tool := "draw", socketId := "c1" }

/-- A sample one-point stroke payload (what the client never emits). -/
def strokeEx1 : Stroke :=
  { id := some "c1-2", points := [⟨0, 0⟩], color := "blue",
    width := 3, tool := "draw", socketId := "c1" }

/-- A sample arrow payload carrying a client temporary ID. -/
def arrowEx : Arrow :=
  { id := some "c1-a1", x1 := 0, y1 := 0, x2 := 7, y2 := 8,
    color := "red", width := 2, style := "solid", socketId := "c1" }

/-- The stroke that `clientStrokeDone "c1" 0 "draw" [(0,0),(5,5)] "blue" 3`
emits. -/
def strokeExEmit : Stroke :=
  { id := some (String.append "c1"
      (String.mk ('-' :: (decDigs 1).map digChar))),
    points := [⟨0, 0⟩, ⟨5, 5⟩], color := "blue", width := 3,
    tool := "draw", socketId := "c1" }

/-- A sample recording whose snapshot holds one token. -/
def recEx : Recording :=
  { id := 1, name := "Recording", timestamp := 0, duration := 0,
    eventCount := 0,
    snapshot := { strokes := [], arrows := [],
                  tokens := [{ tokEx with id := "t1" }] },
    timeline := [] }

/-- An idle state holding one stroke and one saved recording. -/
def sIdleWithRec : Srv :=
  { srvInit with
    strokes := [strokeEx],
    recordings := [recEx],
    nextRecId := 2 }

/-- A state in the middle of an active recording that also has one saved
recording — the configuration exercising the `replay-start` guard. -/
def sRecActive : Srv :=
  { srvInit with
    recS := { active := true, start := 100, snapshot := emptySnap,
              timeline := [] },
    recordings := [recEx],
    nextRecId := 2,
    nextTokenId := 2 }

/-- A state in the middle of an active replay. -/
def sRepActive : Srv :=
  { srvInit with
    tokens := [{ tokEx with id := "t1" }],
    nextTokenId := 2,
    rep := { active := true,
             timers := [Task.finishT 900],
             preSnap := { strokes := [strokeEx], arrows := [],
                          tokens := [] },
             currentRecId := some 1 },
    recordings := [recEx],
    nextRecId := 2 }

/-! ### Lemmas about decimal-digit IDs -/

theorem decDigs_lt (n : Nat) (h : n < 10) : decDigs n = [n] := by
  rw [decDigs]
  simp [h]

theorem decDigs_ge (n : Nat) (h : ¬ n < 10) :
    decDigs n = decDigs (n / 10) ++ [n % 10] := by
  conv_lhs => rw [decDigs]
  simp [h]

theorem decDigs_ne_nil (n : Nat) : decDigs n ≠ [] := by
  by_cases h : n < 10
  · rw [decDigs_lt n h]
    simp
  · rw [decDigs_ge n h]
    simp

theorem decDigs_lt_ten (n : Nat) : ∀ d ∈ decDigs n, d < 10 := by
  induction n using Nat.strong_induction_on with
  | _ n ih =>
    by_cases h : n < 10
    · rw [decDigs_lt n h]
      intro d hd
      simp at hd
      omega
    · rw [decDigs_ge n h]
      intro d hd
      simp at hd
      rcases hd with hd | hd
      · exact ih (n / 10) (Nat.div_lt_self (by omega) (by omega)) d hd
      · omega

theorem decDigs_injective : Function.Injective decDigs := by
  intro a b
  induction a using Nat.strong_induction_on generalizing b with
  | _ a ih =>
    intro hab
    by_cases ha : a < 10 <;> by_cases hb : b < 10
    · rw [decDigs_lt a ha, decDigs_lt b hb] at hab
      simpa using hab
    · rw [decDigs_lt a ha, decDigs_ge b hb] at hab
      have hlen := congrArg List.length hab
      have hne := decDigs_ne_nil (b / 10)
      cases h : decDigs (b / 10) with
      | nil => exact absurd h hne
      | cons x xs =>
        rw [h] at hlen
        simp at hlen
    · rw [decDigs_ge a ha, decDigs_lt b hb] at hab
      have hlen := congrArg List.length hab
      have hne := decDigs_ne_nil (a / 10)
      cases h : decDigs (a / 10) with
      | nil => exact absurd h hne
      | cons x xs =>
        rw [h] at hlen
        simp at hlen
    · rw [decDigs_ge a ha, decDigs_ge b hb] at hab
      have hlen : (decDigs (a / 10)).length = (decDigs (b / 10)).length := by
        have := congrArg List.length hab
        simp at this
        exact this
      have := List.append_inj hab hlen
      rcases this with ⟨h1, h2⟩
      have hdiv : a / 10 = b / 10 :=
        ih (a / 10) (Nat.div_lt_self (by omega) (by omega)) h1
      have hmod : a % 10 = b % 10 := by
        simpa using h2
      omega

theorem digChar_inj_lt : ∀ d1 < 10, ∀ d2 < 10,
    digChar d1 = digChar d2 → d1 = d2 := by decide

theorem mapDigChar_inj {l1 l2 : List Nat} (h1 : ∀ d ∈ l1, d < 10)
    (h2 : ∀ d ∈ l2, d < 10) (h : l1.map digChar = l2.map digChar) :
    l1 = l2 := by
  induction l1 generalizing l2 with
  | nil => cases l2 <;> simp_all
  | cons x xs ih =>
    cases l2 with
    | nil => simp at h
    | cons y ys =>
      simp at h
      rcases h with ⟨hxy, hrest⟩
      have hx : x = y :=
        digChar_inj_lt x (h1 x (by simp)) y (h2 y (by simp)) hxy
      have hxs : xs = ys :=
        ih (fun d hd => h1 d (by simp [hd]))
          (fun d hd => h2 d (by simp [hd])) hrest
      rw [hx, hxs]

theorem tokId_injective : Function.Injective tokId := by
  intro a b hab
  unfold tokId at hab
  have hdata : 't' :: (decDigs a).map digChar
      = 't' :: (decDigs b).map digChar := by
    injection hab
  simp at hdata
  exact decDigs_injective
    (mapDigChar_inj (decDigs_lt_ten a) (decDigs_lt_ten b) hdata)

theorem arrId_injective : Function.Injective arrId := by
  intro a b hab
  unfold arrId at hab
  have hdata : 'a' :: 'r' :: (decDigs a).map digChar
      = 'a' :: 'r' :: (decDigs b).map digChar := by
    injection hab
  simp at hdata
  exact decDigs_injective
    (mapDigChar_inj (decDigs_lt_ten a) (decDigs_lt_ten b) hdata)

/-! ### Basic lemmas about the event loop -/

theorem run_nil (s : Srv) : run [] s = s := rfl

theorem run_cons (e : Ev) (es : List Ev) (s : Srv) :
    run (e :: es) s = run es (stepS s e) := rfl

theorem run_append (es1 es2 : List Ev) (s : Srv) :
    run (es1 ++ es2) s = run es2 (run es1 s) :=
  List.foldl_append stepS s es1 es2

@[simp] theorem recordEvent_strokes (now : Nat) (ev : String) (d : Payload)
    (s : Srv) : (recordEvent now ev d s).strokes = s.strokes := by
  unfold recordEvent
  split <;> rfl

@[simp] theorem recordEvent_arrows (now : Nat) (ev : String) (d : Payload)
    (s : Srv) : (recordEvent now ev d s).arrows = s.arrows := by
  unfold recordEvent
  split <;> rfl

@[simp] theorem recordEvent_tokens (now : Nat) (ev : String) (d : Payload)
    (s : Srv) : (recordEvent now ev d s).tokens = s.tokens := by
  unfold recordEvent
  split <;> rfl

@[simp] theorem recordEvent_nextTokenId (now : Nat) (ev : String)
    (d : Payload) (s : Srv) :
    (recordEvent now ev d s).nextTokenId = s.nextTokenId := by
  unfold recordEvent
  split <;> rfl

@[simp] theorem recordEvent_nextArrowId (now : Nat) (ev : String)
    (d : Payload) (s : Srv) :
    (recordEvent now ev d s).nextArrowId = s.nextArrowId := by
  unfold recordEvent
  split <;> rfl

@[simp] theorem recordEvent_rep (now : Nat) (ev : String) (d : Payload)
    (s : Srv) : (recordEvent now ev d s).rep = s.rep := by
  unfold recordEvent
  split <;> rfl

@[simp] theorem recordEvent_recordings (now : Nat) (ev : String)
    (d : Payload) (s : Srv) :
    (recordEvent now ev d s).recordings = s.recordings := by
  unfold recordEvent
  split <;> rfl

@[simp] theorem recordEvent_nextRecId (now : Nat) (ev : String) (d : Payload)
    (s : Srv) : (recordEvent now ev d s).nextRecId = s.nextRecId := by
  unfold recordEvent
  split <;> rfl

@[simp] theorem recordEvent_boardPresets (now : Nat) (ev : String)
    (d : Payload) (s : Srv) :
    (recordEvent now ev d s).boardPresets = s.boardPresets := by
  unfold recordEvent
  split <;> rfl

@[simp] theorem recordEvent_nextPresetId (now : Nat) (ev : String)
    (d : Payload) (s : Srv) :
    (recordEvent now ev d s).nextPresetId = s.nextPresetId := by
  unfold recordEvent
  split <;> rfl

@[simp] theorem recordEvent_pendingInit (now : Nat) (ev : String)
    (d : Payload) (s : Srv) :
    (recordEvent now ev d s).pendingInit = s.pendingInit := by
  unfold recordEvent
  split <;> rfl

@[simp] theorem recordEvent_recS_active (now : Nat) (ev : String)
    (d : Payload) (s : Srv) :
    (recordEvent now ev d s).recS.active = s.recS.active := by
  unfold recordEvent
  split <;> rfl

@[simp] theorem recordEvent_recS_start (now : Nat) (ev : String)
    (d : Payload) (s : Srv) :
    (recordEvent now ev d s).recS.start = s.recS.start := by
  unfold recordEvent
  split <;> rfl

@[simp] theorem recordEvent_recS_snapshot (now : Nat) (ev : String)
    (d : Payload) (s : Srv) :
    (recordEvent now ev d s).recS.snapshot = s.recS.snapshot := by
  unfold recordEvent
  split <;> rfl

theorem recordEvent_timeline_active (now : Nat) (ev : String) (d : Payload)
    (s : Srv) (h : s.recS.active = true) :
    (recordEvent now ev d s).recS.timeline
      = s.recS.timeline ++ [⟨now - s.recS.start, ev, d⟩] := by
  unfold recordEvent
  simp [h]

/-! ### Small lemmas about removals and token-map updates -/

theorem removeFirstStroke_absent (l : List Stroke) (id : String)
    (h : ∀ st ∈ l, st.id ≠ some id) : removeFirstStroke l id = l := by
  induction l with
  | nil => rfl
  | cons st rest ih =>
    unfold removeFirstStroke
    rw [if_neg (h st (by simp))]
    rw [ih (fun x hx => h x (by simp [hx]))]

theorem removeFirstStroke_subset (l : List Stroke) (id : String) :
    ∀ x ∈ removeFirstStroke l id, x ∈ l := by
  induction l with
  | nil => intro x hx; exact absurd hx (by simp [removeFirstStroke])
  | cons st rest ih =>
    intro x hx
    unfold removeFirstStroke at hx
    by_cases hc : st.id = some id
    · rw [if_pos hc] at hx
      exact List.mem_cons_of_mem st hx
    · rw [if_neg hc] at hx
      rcases List.mem_cons.mp hx with hx | hx
      · simp [hx]
      · exact List.mem_cons_of_mem st (ih x hx)

theorem foldl_removeFirstStroke_subset (ids : List String) (l : List Stroke) :
    ∀ x ∈ ids.foldl removeFirstStroke l, x ∈ l := by
  induction ids generalizing l with
  | nil => intro x hx; simpa using hx
  | cons i rest ih =>
    intro x hx
    simp only [List.foldl_cons] at hx
    exact removeFirstStroke_subset l i x (ih (removeFirstStroke l i) x hx)

theorem foldl_removeFirstStroke_skip (ids1 ids2 : List String) (bad : String)
    (l : List Stroke) (h : ∀ st ∈ l, st.id ≠ some bad) :
    (ids1 ++ bad :: ids2).foldl removeFirstStroke l
      = (ids1 ++ ids2).foldl removeFirstStroke l := by
  induction ids1 generalizing l with
  | nil =>
    simp only [List.nil_append, List.foldl_cons]
    rw [removeFirstStroke_absent l bad h]
  | cons i rest ih =>
    simp only [List.cons_append, List.foldl_cons]
    exact ih (removeFirstStroke l i)
      (fun x hx => h x (removeFirstStroke_subset l i x hx))

theorem removeFirstArrow_absent (l : List Arrow) (id : String)
    (h : ∀ a ∈ l, a.id ≠ some id) : removeFirstArrow l id = l := by
  induction l with
  | nil => rfl
  | cons a rest ih =>
    unfold removeFirstArrow
    rw [if_neg (h a (by simp))]
    rw [ih (fun x hx => h x (by simp [hx]))]

theorem removeFirstArrow_subset (l : List Arrow) (id : String) :
    ∀ x ∈ removeFirstArrow l id, x ∈ l := by
  induction l with
  | nil => intro x hx; exact absurd hx (by simp [removeFirstArrow])
  | cons a rest ih =>
    intro x hx
    unfold removeFirstArrow at hx
    by_cases hc : a.id = some id
    · rw [if_pos hc] at hx
      exact List.mem_cons_of_mem a hx
    · rw [if_neg hc] at hx
      rcases List.mem_cons.mp hx with hx | hx
      · simp [hx]
      · exact List.mem_cons_of_mem a (ih x hx)

theorem foldl_removeFirstArrow_subset (ids : List String) (l : List Arrow) :
    ∀ x ∈ ids.foldl removeFirstArrow l, x ∈ l := by
  induction ids generalizing l with
  | nil => intro x hx; simpa using hx
  | cons i rest ih =>
    intro x hx
    simp only [List.foldl_cons] at hx
    exact removeFirstArrow_subset l i x (ih (removeFirstArrow l i) x hx)

theorem updateToken_absent (ts : List Token) (id : String) (f : Token → Token)
    (h : ∀ t ∈ ts, t.id ≠ id) : updateToken ts id f = ts := by
  induction ts with
  | nil => rfl
  | cons t rest ih =>
    unfold updateToken
    rw [if_neg (h t (by simp))]
    rw [ih (fun x hx => h x (by simp [hx]))]

theorem filter_tokens_absent (ts : List Token) (id : String)
    (h : ∀ t ∈ ts, t.id ≠ id) :
    ts.filter (fun t => t.id != id) = ts := by
  apply List.filter_eq_self.mpr
  intro t ht
  simpa using h t ht

theorem findToken_eq_none (ts : List Token) (id : String)
    (h : ∀ t ∈ ts, t.id ≠ id) : findToken ts id = none := by
  apply List.find?_eq_none.mpr
  intro t ht
  simpa using h t ht

/-! ### C5 — clear-board versus clear-drawings -/

/-- C5: after a `clear-board` (clearAll) event the stroke, arrow and
token collections are all empty; after a `clear-drawings`
(clearDrawingsOnly) event the stroke and arrow collections are empty
while the token collection is exactly what it was before the event. -/
theorem c5_clear_board_and_drawings (s : Srv) (now : Nat) :
    (hClearBoard now s).1.strokes = [] ∧
    (hClearBoard now s).1.arrows = [] ∧
    (hClearBoard now s).1.tokens = [] ∧
    (hClearDrawings now s).1.strokes = [] ∧
    (hClearDrawings now s).1.arrows = [] ∧
    (hClearDrawings now s).1.tokens = s.tokens := by
  refine ⟨?_, ?_, ?_, ?_, ?_, ?_⟩ <;> simp [hClearBoard, hClearDrawings]

/-! ### C2 — state conflicts between recorder and replay -/

/-- C2 counterexample: in the concrete state `sRecActive` a recording is
active and no replay is active, yet `replay-start` for the saved
recording 1 is not a silent no-op — it activates the replay engine and
swaps the document store, contradicting the claimed symmetric rejection. -/
theorem c2_counterexample_replay_start_while_recording :
    sRecActive.recS.active = true ∧
    sRecActive.rep.active = false ∧
    (hReplayStart 1 sRecActive).1.rep.active = true ∧
    (hReplayStart 1 sRecActive).1.tokens ≠ sRecActive.tokens := by
  refine ⟨rfl, rfl, by decide, by decide⟩

/-- C2 (amended): at most one replay is in flight (a `replay-start`
received while a replay is active is a silent no-op), and a
`recording-start` received while a recording or a replay is active is a
silent no-op; however, a `replay-start` received while only a recording
is active is not rejected. -/
theorem c2_amended_state_conflicts (s : Srv) (now recId : Nat) :
    (s.recS.active = true ∨ s.rep.active = true →
      hRecordingStart now s = (s, [])) ∧
    (s.rep.active = true → hReplayStart recId s = (s, [])) := by
  constructor
  · intro h
    rcases h with h | h <;> simp [hRecordingStart, h]
  · intro h
    simp [hReplayStart, h]

/-- Witness for C2 (amended) at the concrete states `sRecActive` (active
recording) and `sRepActive` (active replay). -/
theorem c2_amended_state_conflicts_witness :
    hRecordingStart 5 sRecActive = (sRecActive, []) ∧
    hReplayStart 1 sRepActive = (sRepActive, []) :=
  ⟨(c2_amended_state_conflicts sRecActive 5 1).1 (Or.inl rfl),
   (c2_amended_state_conflicts sRepActive 5 1).2 rfl⟩

/-! ### C7 — operations on absent IDs are silent no-ops -/

/-- C7: `stroke-remove`, `arrow-remove`, `token-remove`, `token-move` and
`token-relabel` targeting an ID that is not in the document store leave
the store unchanged (the `token-move` handler produces no output at all),
and a nonexistent ID inside a `stroke-remove` batch is simply skipped —
it never aborts the processing of the remaining IDs. -/
theorem c7_absent_id_silent_noop (s : Srv) (now : Nat) (bad label : String)
    (x y : Int) (ids1 ids2 : List String)
    (h1 : ∀ st ∈ s.strokes, st.id ≠ some bad)
    (h2 : ∀ a ∈ s.arrows, a.id ≠ some bad)
    (h3 : ∀ t ∈ s.tokens, t.id ≠ bad) :
    (hStrokeRemove now [bad] s).1.strokes = s.strokes ∧
    (hArrowRemove now [bad] s).1.arrows = s.arrows ∧
    (hTokenRemove now bad s).1.tokens = s.tokens ∧
    hTokenMove now bad x y s = (s, []) ∧
    (hTokenRelabel now bad label s).1.tokens = s.tokens ∧
    (hStrokeRemove now (ids1 ++ bad :: ids2) s).1.strokes
      = (hStrokeRemove now (ids1 ++ ids2) s).1.strokes := by
  refine ⟨?_, ?_, ?_, ?_, ?_, ?_⟩
  · simp [hStrokeRemove, removeFirstStroke_absent s.strokes bad h1]
  · simp [hArrowRemove, removeFirstArrow_absent s.arrows bad h2]
  · simp [hTokenRemove, filter_tokens_absent s.tokens bad h3]
  · simp [hTokenMove, findToken_eq_none s.tokens bad h3]
  · simp [hTokenRelabel, updateToken_absent s.tokens bad _ h3]
  · simp [hStrokeRemove,
      foldl_removeFirstStroke_skip ids1 ids2 bad s.strokes h1]

/-- Witness for C7 at the concrete state `sRepActive` and the absent ID
`zzz`. -/
theorem c7_absent_id_silent_noop_witness :
    (hStrokeRemove 7 ["zzz"] sRepActive).1.strokes = sRepActive.strokes ∧
    (hArrowRemove 7 ["zzz"] sRepActive).1.arrows = sRepActive.arrows ∧
    (hTokenRemove 7 "zzz" sRepActive).1.tokens = sRepActive.tokens ∧
    hTokenMove 7 "zzz" 1 2 sRepActive = (sRepActive, []) ∧
    (hTokenRelabel 7 "zzz" "B" sRepActive).1.tokens = sRepActive.tokens ∧
    (hStrokeRemove 7 (["a"] ++ "zzz" :: ["b"]) sRepActive).1.strokes
      = (hStrokeRemove 7 (["a"] ++ ["b"]) sRepActive).1.strokes :=
  c7_absent_id_silent_noop sRepActive 7 "zzz" "B" 1 2 ["a"] ["b"]
    (by decide) (by decide) (by decide)

/-! ### C10 — absent-ID token events still broadcast and record -/

/-- C10: with a recording active, a `token-remove` or `token-relabel`
whose target ID is absent still broadcasts the event to all connections
and still appends it to the recording timeline even though the token
collection is unchanged, whereas a `token-move` on an absent ID produces
no broadcast, no timeline entry and no state change at all. -/
theorem c10_absent_token_events (s : Srv) (now : Nat) (bad label : String)
    (x y : Int)
    (h : ∀ t ∈ s.tokens, t.id ≠ bad)
    (hrec : s.recS.active = true) :
    (hTokenRemove now bad s).1.tokens = s.tokens ∧
    (hTokenRemove now bad s).2
      = [⟨Target.all, "token-remove", Payload.pId bad⟩] ∧
    (hTokenRemove now bad s).1.recS.timeline
      = s.recS.timeline
        ++ [⟨now - s.recS.start, "token-remove", Payload.pId bad⟩] ∧
    (hTokenRelabel now bad label s).1.tokens = s.tokens ∧
    (hTokenRelabel now bad label s).2
      = [⟨Target.all, "token-relabel", Payload.pRelabel bad label⟩] ∧
    (hTokenRelabel now bad label s).1.recS.timeline
      = s.recS.timeline
        ++ [⟨now - s.recS.start, "token-relabel", Payload.pRelabel bad label⟩] ∧
    hTokenMove now bad x y s = (s, []) := by
  refine ⟨?_, rfl, ?_, ?_, rfl, ?_, ?_⟩
  · simp [hTokenRemove, filter_tokens_absent s.tokens bad h]
  · simp [hTokenRemove, recordEvent_timeline_active, hrec]
  · simp [hTokenRelabel, updateToken_absent s.tokens bad _ h]
  · simp [hTokenRelabel, recordEvent_timeline_active, hrec]
  · simp [hTokenMove, findToken_eq_none s.tokens bad h]

/-- Witness for C10 at the concrete state `sRecActive` (recording active,
no tokens) and the absent ID `zzz`. -/
theorem c10_absent_token_events_witness :
    (hTokenRemove 9 "zzz" sRecActive).1.tokens = sRecActive.tokens ∧
    (hTokenRemove 9 "zzz" sRecActive).2
      = [⟨Target.all, "token-remove", Payload.pId "zzz"⟩] ∧
    (hTokenRemove 9 "zzz" sRecActive).1.recS.timeline
      = sRecActive.recS.timeline
        ++ [⟨9 - sRecActive.recS.start, "token-remove", Payload.pId "zzz"⟩] ∧
    (hTokenRelabel 9 "zzz" "B" sRecActive).1.tokens = sRecActive.tokens ∧
    (hTokenRelabel 9 "zzz" "B" sRecActive).2
      = [⟨Target.all, "token-relabel", Payload.pRelabel "zzz" "B"⟩] ∧
    (hTokenRelabel 9 "zzz" "B" sRecActive).1.recS.timeline
      = sRecActive.recS.timeline
        ++ [⟨9 - sRecActive.recS.start, "token-relabel",
             Payload.pRelabel "zzz" "B"⟩] ∧
    hTokenMove 9 "zzz" 1 2 sRecActive = (sRecActive, []) :=
  c10_absent_token_events sRecActive 9 "zzz" "B" 1 2 (by decide) rfl

/-! ### C4 — recording-stop finalization -/

/-- C4: a `recording-stop` with no active recording is a no-op; with an
active recording the assembled Recording has duration equal to the last
timeline offset (0 when the timeline is empty) and event count equal to
the number of timeline entries; and the concrete session that records
strokes at absolute times T and T+500 and stops at T+900 stores a
Recording with duration 500 and event count 2. -/
theorem c4_recording_stop_finalize (s0 sA : Srv) (now T : Nat)
    (stA stB : Stroke) (o1 o2 : String)
    (h0 : s0.recS.active = false) (h0r : s0.rep.active = false)
    (hA : sA.recS.active = true) :
    hRecordingStop now s0 = (s0, []) ∧
    ((hRecordingStop now sA).1.recordings).getLast?.map
        (fun r => (r.duration, r.eventCount))
      = some (recDuration sA.recS.timeline, sA.recS.timeline.length) ∧
    (run [Ev.recordingStart T, Ev.strokeDone o1 T stA,
          Ev.strokeDone o2 (T + 500) stB, Ev.recordingStop (T + 900)]
        s0).recordings.getLast?.map (fun r => (r.duration, r.eventCount))
      = some (500, 2) := by
  refine ⟨?_, ?_, ?_⟩
  · simp [hRecordingStop, h0]
  · simp [hRecordingStop, hA]
  · simp [run, stepS, step, hRecordingStart, h0, h0r, hStrokeDone,
      hRecordingStop, recordEvent, snapState, recDuration]

/-- Witness for C4 with both states concrete (`srvInit` idle and
`sRecActive` recording) and concrete strokes at T = 1000. -/
theorem c4_recording_stop_finalize_witness :
    hRecordingStop 50 srvInit = (srvInit, []) ∧
    ((hRecordingStop 50 sRecActive).1.recordings).getLast?.map
        (fun r => (r.duration, r.eventCount))
      = some (recDuration sRecActive.recS.timeline,
              sRecActive.recS.timeline.length) ∧
    (run [Ev.recordingStart 1000, Ev.strokeDone "c1" 1000 strokeEx,
          Ev.strokeDone "c2" 1500 strokeEx, Ev.recordingStop 1900]
        srvInit).recordings.getLast?.map
        (fun r => (r.duration, r.eventCount))
      = some (500, 2) :=
  c4_recording_stop_finalize srvInit sRecActive 50 1000 strokeEx strokeEx
    "c1" "c2" rfl rfl rfl

/-! ### Lemmas about the server-ID invariant -/

theorem tokOk_nil (n : Nat) : TokOk n [] := ⟨by simp, by simp⟩

theorem tokOk_mono {n m : Nat} {ts : List Token} (h : TokOk n ts)
    (hnm : n ≤ m) : TokOk m ts := by
  refine ⟨?_, h.2⟩
  intro t ht
  obtain ⟨k, hk, hid⟩ := h.1 t ht
  exact ⟨k, by omega, hid⟩

theorem tokId_fresh {n : Nat} {ts : List Token}
    (hb : ∀ t ∈ ts, ∃ k, k < n ∧ t.id = tokId k) :
    tokId n ∉ ts.map (fun t => t.id) := by
  intro hmem
  rcases List.mem_map.mp hmem with ⟨t, ht, hid⟩
  obtain ⟨k, hk, hid2⟩ := hb t ht
  have hkn : tokId k = tokId n := by
    rw [← hid2]
    exact hid
  have := tokId_injective hkn
  omega

theorem setToken_fresh (ts : List Token) (t : Token)
    (h : t.id ∉ ts.map (fun u => u.id)) : setToken ts t = ts ++ [t] := by
  induction ts with
  | nil => rfl
  | cons u rest ih =>
    simp only [List.map_cons, List.mem_cons, not_or] at h
    unfold setToken
    rw [if_neg (fun he => h.1 he.symm)]
    rw [ih h.2]
    simp

theorem tokOk_setToken {n : Nat} {ts : List Token} (h : TokOk n ts)
    (tok : Token) :
    TokOk (n + 1) (setToken ts { tok with id := tokId n }) := by
  have hfresh : ({ tok with id := tokId n } : Token).id
      ∉ ts.map (fun u => u.id) := tokId_fresh h.1
  rw [setToken_fresh ts _ hfresh]
  constructor
  · intro t ht
    rcases List.mem_append.mp ht with ht | ht
    · obtain ⟨k, hk, hid⟩ := h.1 t ht
      exact ⟨k, by omega, hid⟩
    · simp at ht
      exact ⟨n, by omega, by rw [ht]⟩
  · rw [List.map_append, List.nodup_append]
    refine ⟨h.2, by simp, ?_⟩
    intro x hx hx2
    simp at hx2
    rw [hx2] at hx
    exact hfresh hx

theorem tokOk_filter {n : Nat} {ts : List Token} (h : TokOk n ts)
    (p : Token → Bool) : TokOk n (ts.filter p) := by
  constructor
  · intro t ht
    exact h.1 t (List.mem_of_mem_filter ht)
  · exact List.Nodup.sublist ((ts.filter_sublist).map (fun t => t.id)) h.2

theorem updateToken_map_id (ts : List Token) (id : String)
    (f : Token → Token) (hf : ∀ t, (f t).id = t.id) :
    (updateToken ts id f).map (fun t => t.id) = ts.map (fun t => t.id) := by
  induction ts with
  | nil => rfl
  | cons t rest ih =>
    unfold updateToken
    by_cases hc : t.id = id
    · rw [if_pos hc]
      simp [hf t]
    · rw [if_neg hc]
      simp [ih]

theorem mem_updateToken (ts : List Token) (id : String) (f : Token → Token) :
    ∀ x ∈ updateToken ts id f, x ∈ ts ∨ ∃ t ∈ ts, x = f t := by
  induction ts with
  | nil => intro x hx; exact absurd hx (by simp [updateToken])
  | cons t rest ih =>
    intro x hx
    unfold updateToken at hx
    by_cases hc : t.id = id
    · rw [if_pos hc] at hx
      rcases List.mem_cons.mp hx with hx | hx
      · exact Or.inr ⟨t, by simp, hx⟩
      · exact Or.inl (by simp [hx])
    · rw [if_neg hc] at hx
      rcases List.mem_cons.mp hx with hx | hx
      · exact Or.inl (by simp [hx])
      · rcases ih x hx with hm | ⟨u, hu, he⟩
        · exact Or.inl (by simp [hm])
        · exact Or.inr ⟨u, by simp [hu], he⟩

theorem tokOk_updateToken {n : Nat} {ts : List Token} (h : TokOk n ts)
    (id : String) (f : Token → Token) (hf : ∀ t, (f t).id = t.id) :
    TokOk n (updateToken ts id f) := by
  constructor
  · intro x hx
    rcases mem_updateToken ts id f x hx with hm | ⟨t, ht, he⟩
    · exact h.1 x hm
    · obtain ⟨k, hk, hid⟩ := h.1 t ht
      exact ⟨k, hk, by rw [he, hf t, hid]⟩
  · rw [updateToken_map_id ts id f hf]
    exact h.2

theorem arrOk_nil (m : Nat) : ArrOk m [] := by
  intro a ha
  simp at ha

theorem arrOk_mono {n m : Nat} {l : List Arrow} (h : ArrOk n l)
    (hnm : n ≤ m) : ArrOk m l := by
  intro a ha
  obtain ⟨k, hk, hid⟩ := h a ha
  exact ⟨k, by omega, hid⟩

theorem arrOk_append {m : Nat} {l : List Arrow} (h : ArrOk m l)
    (arrow : Arrow) (o : String) :
    ArrOk (m + 1)
      (l ++ [{ arrow with id := some (arrId m), socketId := o }]) := by
  intro a ha
  rcases List.mem_append.mp ha with ha | ha
  · obtain ⟨k, hk, hid⟩ := h a ha
    exact ⟨k, by omega, hid⟩
  · simp at ha
    exact ⟨m, by omega, by rw [ha]⟩

theorem arrOk_subset {m : Nat} {l l2 : List Arrow} (h : ArrOk m l)
    (hsub : ∀ x ∈ l2, x ∈ l) : ArrOk m l2 :=
  fun a ha => h a (hsub a ha)

theorem arrId_fresh {m : Nat} {l : List Arrow} (h : ArrOk m l) :
    ∀ a ∈ l, a.id ≠ some (arrId m) := by
  intro a ha he
  obtain ⟨k, hk, hid⟩ := h a ha
  rw [hid] at he
  have := arrId_injective (Option.some.inj he)
  omega

theorem removeFirstRec_subset (rs : List Recording) (i : Nat) :
    ∀ r ∈ removeFirstRec rs i, r ∈ rs := by
  induction rs with
  | nil => intro r hr; exact absurd hr (by simp [removeFirstRec])
  | cons r0 rest ih =>
    intro r hr
    unfold removeFirstRec at hr
    by_cases hc : r0.id = i
    · rw [if_pos hc] at hr
      exact List.mem_cons_of_mem r0 hr
    · rw [if_neg hc] at hr
      rcases List.mem_cons.mp hr with hr | hr
      · simp [hr]
      · exact List.mem_cons_of_mem r0 (ih r hr)

theorem renameRec_mem (rs : List Recording) (i : Nat) (nn : String) :
    ∀ r ∈ renameRec rs i nn, ∃ r0 ∈ rs, r.snapshot = r0.snapshot := by
  induction rs with
  | nil => intro r hr; exact absurd hr (by simp [renameRec])
  | cons r0 rest ih =>
    intro r hr
    unfold renameRec at hr
    by_cases hc : r0.id = i
    · rw [if_pos hc] at hr
      rcases List.mem_cons.mp hr with hr | hr
      · exact ⟨r0, by simp, by rw [hr]⟩
      · exact ⟨r, by simp [hr], rfl⟩
    · rw [if_neg hc] at hr
      rcases List.mem_cons.mp hr with hr | hr
      · exact ⟨r0, by simp, by rw [hr]⟩
      · obtain ⟨r1, hr1, he⟩ := ih r hr
        exact ⟨r1, by simp [hr1], he⟩

theorem removeFirstPre_subset (ps : List Preset) (i : Nat) :
    ∀ p ∈ removeFirstPre ps i, p ∈ ps := by
  induction ps with
  | nil => intro p hp; exact absurd hp (by simp [removeFirstPre])
  | cons p0 rest ih =>
    intro p hp
    unfold removeFirstPre at hp
    by_cases hc : p0.id = i
    · rw [if_pos hc] at hp
      exact List.mem_cons_of_mem p0 hp
    · rw [if_neg hc] at hp
      rcases List.mem_cons.mp hp with hp | hp
      · simp [hp]
      · exact List.mem_cons_of_mem p0 (ih p hp)

theorem renamePre_mem (ps : List Preset) (i : Nat) (nn : String) :
    ∀ p ∈ renamePre ps i nn, ∃ p0 ∈ ps,
      p.tokens = p0.tokens ∧ p.arrows = p0.arrows ∧ p.strokes = p0.strokes := by
  induction ps with
  | nil => intro p hp; exact absurd hp (by simp [renamePre])
  | cons p0 rest ih =>
    intro p hp
    unfold renamePre at hp
    by_cases hc : p0.id = i
    · rw [if_pos hc] at hp
      rcases List.mem_cons.mp hp with hp | hp
      · exact ⟨p0, by simp, by rw [hp], by rw [hp], by rw [hp]⟩
      · exact ⟨p, by simp [hp], rfl, rfl, rfl⟩
    · rw [if_neg hc] at hp
      rcases List.mem_cons.mp hp with hp | hp
      · exact ⟨p0, by simp, by rw [hp], by rw [hp], by rw [hp]⟩
      · obtain ⟨p1, hp1, he⟩ := ih p hp
        exact ⟨p1, by simp [hp1], he⟩

/-- The invariant `IdInv` only looks at these eight projections. -/
theorem idInv_of_eq {s s2 : Srv} (hInv : IdInv s)
    (h1 : s2.tokens = s.tokens) (h2 : s2.arrows = s.arrows)
    (h3 : s2.nextTokenId = s.nextTokenId)
    (h4 : s2.nextArrowId = s.nextArrowId)
    (h5 : s2.recS.snapshot = s.recS.snapshot)
    (h6 : s2.rep.preSnap = s.rep.preSnap)
    (h7 : s2.recordings = s.recordings)
    (h8 : s2.boardPresets = s.boardPresets) : IdInv s2 := by
  unfold IdInv at hInv ⊢
  rw [h1, h2, h3, h4, h5, h6, h7, h8]
  exact hInv

/-- Every event-loop turn preserves the server-ID invariant. -/
theorem idInv_step (e : Ev) (s : Srv) (h : IdInv s) : IdInv (stepS s e) := by
  obtain ⟨ht, htr, htp, htR, htP, ha, har, hap, haR, haP⟩ := h
  cases e with
  | strokeDone o n st =>
    refine idInv_of_eq ⟨ht, htr, htp, htR, htP, ha, har, hap, haR, haP⟩
      ?_ ?_ ?_ ?_ ?_ ?_ ?_ ?_ <;> simp [stepS, step, hStrokeDone]
  | strokeRemove n ids =>
    refine idInv_of_eq ⟨ht, htr, htp, htR, htP, ha, har, hap, haR, haP⟩
      ?_ ?_ ?_ ?_ ?_ ?_ ?_ ?_ <;> simp [stepS, step, hStrokeRemove]
  | tokenAdd n tok =>
    refine ⟨?_, ?_, ?_, ?_, ?_, ?_, ?_, ?_, ?_, ?_⟩ <;>
      simp [stepS, step, hTokenAdd]
    · exact tokOk_setToken ht tok
    · exact tokOk_mono htr (by omega)
    · exact tokOk_mono htp (by omega)
    · intro r hr
      exact tokOk_mono (htR r hr) (by omega)
    · intro p hp
      exact tokOk_mono (htP p hp) (by omega)
    · exact ha
    · exact har
    · exact hap
    · exact haR
    · exact haP
  | tokenMove n id x y =>
    cases hfind : findToken s.tokens id with
    | none =>
      simp [stepS, step, hTokenMove, hfind]
      exact ⟨ht, htr, htp, htR, htP, ha, har, hap, haR, haP⟩
    | some t0 =>
      refine ⟨?_, ?_, ?_, ?_, ?_, ?_, ?_, ?_, ?_, ?_⟩ <;>
        simp [stepS, step, hTokenMove, hfind]
      · exact tokOk_updateToken ht id _ (fun t => rfl)
      · exact htr
      · exact htp
      · exact htR
      · exact htP
      · exact ha
      · exact har
      · exact hap
      · exact haR
      · exact haP
  | tokenRemove n id =>
    refine ⟨?_, ?_, ?_, ?_, ?_, ?_, ?_, ?_, ?_, ?_⟩ <;>
      simp [stepS, step, hTokenRemove]
    · exact tokOk_filter ht _
    · exact htr
    · exact htp
    · exact htR
    · exact htP
    · exact ha
    · exact har
    · exact hap
    · exact haR
    · exact haP
  | tokenRelabel n id lb =>
    refine ⟨?_, ?_, ?_, ?_, ?_, ?_, ?_, ?_, ?_, ?_⟩ <;>
      simp [stepS, step, hTokenRelabel]
    · exact tokOk_updateToken ht id _ (fun t => rfl)
    · exact htr
    · exact htp
    · exact htR
    · exact htP
    · exact ha
    · exact har
    · exact hap
    · exact haR
    · exact haP
  | arrowDone o n arrow =>
    refine ⟨?_, ?_, ?_, ?_, ?_, ?_, ?_, ?_, ?_, ?_⟩ <;>
      simp [stepS, step, hArrowDone]
    · exact ht
    · exact htr
    · exact htp
    · exact htR
    · exact htP
    · exact arrOk_append ha arrow o
    · exact arrOk_mono har (by omega)
    · exact arrOk_mono hap (by omega)
    · intro r hr
      exact arrOk_mono (haR r hr) (by omega)
    · intro p hp
      exact arrOk_mono (haP p hp) (by omega)
  | arrowRemove n ids =>
    refine ⟨?_, ?_, ?_, ?_, ?_, ?_, ?_, ?_, ?_, ?_⟩ <;>
      simp [stepS, step, hArrowRemove]
    · exact ht
    · exact htr
    · exact htp
    · exact htR
    · exact htP
    · exact arrOk_subset ha (foldl_removeFirstArrow_subset ids s.arrows)
    · exact har
    · exact hap
    · exact haR
    · exact haP
  | clearBoard n =>
    refine ⟨?_, ?_, ?_, ?_, ?_, ?_, ?_, ?_, ?_, ?_⟩ <;>
      simp [stepS, step, hClearBoard]
    · exact tokOk_nil _
    · exact htr
    · exact htp
    · exact htR
    · exact htP
    · exact arrOk_nil _
    · exact har
    · exact hap
    · exact haR
    · exact haP
  | clearDrawings n =>
    refine ⟨?_, ?_, ?_, ?_, ?_, ?_, ?_, ?_, ?_, ?_⟩ <;>
      simp [stepS, step, hClearDrawings]
    · exact ht
    · exact htr
    · exact htp
    · exact htR
    · exact htP
    · exact arrOk_nil _
    · exact har
    · exact hap
    · exact haR
    · exact haP
  | recordingStart n =>
    by_cases hc : (s.recS.active || s.rep.active) = true
    · simp [stepS, step, hRecordingStart, hc]
      exact ⟨ht, htr, htp, htR, htP, ha, har, hap, haR, haP⟩
    · refine ⟨?_, ?_, ?_, ?_, ?_, ?_, ?_, ?_, ?_, ?_⟩ <;>
        simp [stepS, step, hRecordingStart, hc, snapState]
      · exact ht
      · exact ht
      · exact htp
      · exact htR
      · exact htP
      · exact ha
      · exact ha
      · exact hap
      · exact haR
      · exact haP
  | recordingStop n =>
    by_cases hc : s.recS.active = true
    · refine ⟨?_, ?_, ?_, ?_, ?_, ?_, ?_, ?_, ?_, ?_⟩ <;>
        simp [stepS, step, hRecordingStop, hc]
      · exact ht
      · exact htr
      · exact htp
      · intro r hr
        rcases hr with hr | hr
        · exact htR r hr
        · rw [hr]
          exact htr
      · exact htP
      · exact ha
      · exact har
      · exact hap
      · intro r hr
        rcases hr with hr | hr
        · exact haR r hr
        · rw [hr]
          exact har
      · exact haP
    · simp [stepS, step, hRecordingStop, hc]
      exact ⟨ht, htr, htp, htR, htP, ha, har, hap, haR, haP⟩
  | replayStart recId =>
    by_cases hc : s.rep.active = true
    · simp [stepS, step, hReplayStart, hc]
      exact ⟨ht, htr, htp, htR, htP, ha, har, hap, haR, haP⟩
    · cases hfind : s.recordings.find? (fun r => r.id == recId) with
      | none =>
        simp [stepS, step, hReplayStart, hc, hfind]
        exact ⟨ht, htr, htp, htR, htP, ha, har, hap, haR, haP⟩
      | some recording =>
        have hmem := List.mem_of_find?_eq_some hfind
        refine ⟨?_, ?_, ?_, ?_, ?_, ?_, ?_, ?_, ?_, ?_⟩ <;>
          simp [stepS, step, hReplayStart, hc, hfind, snapState]
        · exact htR recording hmem
        · exact htr
        · exact ht
        · exact htR
        · exact htP
        · exact haR recording hmem
        · exact har
        · exact ha
        · exact haR
        · exact haP
  | replayStop =>
    by_cases hc : s.rep.active = true
    · refine ⟨?_, ?_, ?_, ?_, ?_, ?_, ?_, ?_, ?_, ?_⟩ <;>
        simp [stepS, step, hReplayStop, hc, finishReplay]
      · exact htp
      · exact htr
      · exact htp
      · exact htR
      · exact htP
      · exact hap
      · exact har
      · exact hap
      · exact haR
      · exact haP
    · simp [stepS, step, hReplayStop, hc]
      exact ⟨ht, htr, htp, htR, htP, ha, har, hap, haR, haP⟩
  | timerFire =>
    cases htm : s.rep.timers with
    | nil =>
      simp [stepS, step, fireTimer, htm]
      exact ⟨ht, htr, htp, htR, htP, ha, har, hap, haR, haP⟩
    | cons t rest =>
      cases t with
      | emitT time ev d =>
        refine idInv_of_eq ⟨ht, htr, htp, htR, htP, ha, har, hap, haR, haP⟩
          ?_ ?_ ?_ ?_ ?_ ?_ ?_ ?_ <;> simp [stepS, step, fireTimer, htm]
      | finishT time =>
        refine ⟨?_, ?_, ?_, ?_, ?_, ?_, ?_, ?_, ?_, ?_⟩ <;>
          simp [stepS, step, fireTimer, htm, finishReplay]
        · exact htp
        · exact htr
        · exact htp
        · exact htR
        · exact htP
        · exact hap
        · exact har
        · exact hap
        · exact haR
        · exact haP
  | replayInitFire =>
    cases hpi : s.pendingInit with
    | nil =>
      simp [stepS, step, fireInit, hpi]
      exact ⟨ht, htr, htp, htR, htP, ha, har, hap, haR, haP⟩
    | cons q rest =>
      obtain ⟨qt, qp⟩ := q
      refine idInv_of_eq ⟨ht, htr, htp, htR, htP, ha, har, hap, haR, haP⟩
        ?_ ?_ ?_ ?_ ?_ ?_ ?_ ?_ <;> simp [stepS, step, fireInit, hpi]
  | getRecordings =>
    simp only [stepS, step, hGetRecordings]
    exact ⟨ht, htr, htp, htR, htP, ha, har, hap, haR, haP⟩
  | renameRecording recId nn =>
    by_cases hc : (s.recordings.find? (fun r => r.id == recId)).isSome = true
    · refine ⟨?_, ?_, ?_, ?_, ?_, ?_, ?_, ?_, ?_, ?_⟩ <;>
        simp [stepS, step, hRenameRecording, hc]
      · exact ht
      · exact htr
      · exact htp
      · intro r hr
        obtain ⟨r0, hr0, hsnap⟩ := renameRec_mem s.recordings recId nn r hr
        rw [hsnap]
        exact htR r0 hr0
      · exact htP
      · exact ha
      · exact har
      · exact hap
      · intro r hr
        obtain ⟨r0, hr0, hsnap⟩ := renameRec_mem s.recordings recId nn r hr
        rw [hsnap]
        exact haR r0 hr0
      · exact haP
    · simp [stepS, step, hRenameRecording, hc]
      exact ⟨ht, htr, htp, htR, htP, ha, har, hap, haR, haP⟩
  | deleteRecording recId =>
    by_cases hc : (s.recordings.find? (fun r => r.id == recId)).isSome = true
    · refine ⟨?_, ?_, ?_, ?_, ?_, ?_, ?_, ?_, ?_, ?_⟩ <;>
        simp [stepS, step, hDeleteRecording, hc]
      · exact ht
      · exact htr
      · exact htp
      · intro r hr
        exact htR r (removeFirstRec_subset s.recordings recId r hr)
      · exact htP
      · exact ha
      · exact har
      · exact hap
      · intro r hr
        exact haR r (removeFirstRec_subset s.recordings recId r hr)
      · exact haP
    · simp [stepS, step, hDeleteRecording, hc]
      exact ⟨ht, htr, htp, htR, htP, ha, har, hap, haR, haP⟩
  | savePreset n nm =>
    refine ⟨?_, ?_, ?_, ?_, ?_, ?_, ?_, ?_, ?_, ?_⟩ <;>
      simp [stepS, step, hSavePreset]
    · exact ht
    · exact htr
    · exact htp
    · exact htR
    · intro p hp
      rcases hp with hp | hp
      · exact htP p hp
      · rw [hp]
        exact ht
    · exact ha
    · exact har
    · exact hap
    · exact haR
    · intro p hp
      rcases hp with hp | hp
      · exact haP p hp
      · rw [hp]
        exact ha
  | loadPreset pid =>
    cases hfind : s.boardPresets.find? (fun p => p.id == pid) with
    | none =>
      simp [stepS, step, hLoadPreset, hfind]
      exact ⟨ht, htr, htp, htR, htP, ha, har, hap, haR, haP⟩
    | some preset =>
      have hmem := List.mem_of_find?_eq_some hfind
      refine ⟨?_, ?_, ?_, ?_, ?_, ?_, ?_, ?_, ?_, ?_⟩ <;>
        simp [stepS, step, hLoadPreset, hfind]
      · exact htP preset hmem
      · exact htr
      · exact htp
      · exact htR
      · exact htP
      · exact haP preset hmem
      · exact har
      · exact hap
      · exact haR
      · exact haP
  | renamePreset pid nn =>
    by_cases hc : (s.boardPresets.find? (fun p => p.id == pid)).isSome = true
    · refine ⟨?_, ?_, ?_, ?_, ?_, ?_, ?_, ?_, ?_, ?_⟩ <;>
        simp [stepS, step, hRenamePreset, hc]
      · exact ht
      · exact htr
      · exact htp
      · exact htR
      · intro p hp
        obtain ⟨p0, hp0, he1, he2, he3⟩ := renamePre_mem s.boardPresets pid nn p hp
        rw [he1]
        exact htP p0 hp0
      · exact ha
      · exact har
      · exact hap
      · exact haR
      · intro p hp
        obtain ⟨p0, hp0, he1, he2, he3⟩ := renamePre_mem s.boardPresets pid nn p hp
        rw [he2]
        exact haP p0 hp0
    · simp [stepS, step, hRenamePreset, hc]
      exact ⟨ht, htr, htp, htR, htP, ha, har, hap, haR, haP⟩
  | deletePreset pid =>
    by_cases hc : (s.boardPresets.find? (fun p => p.id == pid)).isSome = true
    · refine ⟨?_, ?_, ?_, ?_, ?_, ?_, ?_, ?_, ?_, ?_⟩ <;>
        simp [stepS, step, hDeletePreset, hc]
      · exact ht
      · exact htr
      · exact htp
      · exact htR
      · intro p hp
        exact htP p (removeFirstPre_subset s.boardPresets pid p hp)
      · exact ha
      · exact har
      · exact hap
      · exact haR
      · intro p hp
        exact haP p (removeFirstPre_subset s.boardPresets pid p hp)
    · simp [stepS, step, hDeletePreset, hc]
      exact ⟨ht, htr, htp, htR, htP, ha, har, hap, haR, haP⟩
  | getPresets =>
    simp only [stepS, step, hGetPresets]
    exact ⟨ht, htr, htp, htR, htP, ha, har, hap, haR, haP⟩

/-- The initial state satisfies the server-ID invariant. -/
theorem idInv_init : IdInv srvInit := by
  refine ⟨tokOk_nil _, tokOk_nil _, tokOk_nil _, ?_, ?_,
    arrOk_nil _, arrOk_nil _, arrOk_nil _, ?_, ?_⟩ <;>
    intro x hx <;> simp [srvInit] at hx

/-- The server-ID invariant holds along every run. -/
theorem idInv_run (es : List Ev) (s : Srv) (h : IdInv s) : IdInv (run es s) := by
  induction es generalizing s with
  | nil => simpa [run] using h
  | cons e rest ih =>
    rw [run_cons]
    exact ih _ (idInv_step e s h)

/-! ### C6 — token ID uniqueness -/

/-- C6: in every state reachable from server start, no two tokens in the
document store share an ID, and the ID that the server would assign to
the next `token-add` (the monotone counter rendered as `` t${n} ``)
differs from the ID of every token currently in the store — so every
assigned ID is fresh, regardless of which connections issued the adds. -/
theorem c6_token_id_uniqueness (es : List Ev) :
    (((run es srvInit).tokens.map (fun t => t.id)).Nodup) ∧
    tokId (run es srvInit).nextTokenId
      ∉ (run es srvInit).tokens.map (fun t => t.id) := by
  have h := idInv_run es srvInit idInv_init
  exact ⟨h.1.2, tokId_fresh h.1.1⟩

/-! ### C8 — arrow-done two-message reconciliation -/

/-- C8: in every reachable state, an `arrow-done` stores the arrow under
a freshly assigned canonical ID (one no stored arrow carries), broadcasts
the canonical arrow only to the connections other than the origin, and
sends the origin a private `arrow-confirmed` message pairing the client's
temporary ID with the canonical arrow — the origin never receives the
plain `arrow-done` broadcast. -/
theorem c8_arrow_done_two_message (es : List Ev) (now : Nat)
    (origin : String) (arrow : Arrow) :
    (hArrowDone origin now arrow (run es srvInit)).1.arrows
      = (run es srvInit).arrows
        ++ [{ arrow with
              id := some (arrId (run es srvInit).nextArrowId),
              socketId := origin }] ∧
    (∀ a ∈ (run es srvInit).arrows,
      a.id ≠ some (arrId (run es srvInit).nextArrowId)) ∧
    (hArrowDone origin now arrow (run es srvInit)).2
      = [⟨Target.others, "arrow-done",
          Payload.pArrow { arrow with
            id := some (arrId (run es srvInit).nextArrowId),
            socketId := origin }⟩,
         ⟨Target.origin, "arrow-confirmed",
          Payload.pConfirm arrow.id { arrow with
            id := some (arrId (run es srvInit).nextArrowId),
            socketId := origin }⟩] ∧
    (∀ em ∈ (hArrowDone origin now arrow (run es srvInit)).2,
      em.event = "arrow-done" → em.target = Target.others) := by
  obtain ⟨_, _, _, _, _, ha, _, _, _, _⟩ := idInv_run es srvInit idInv_init
  refine ⟨by simp [hArrowDone], arrId_fresh ha, rfl, ?_⟩
  intro em hem hev
  simp [hArrowDone] at hem
  rcases hem with hem | hem
  · rw [hem]
  · rw [hem] at hev
    exact absurd hev (by simp)

/-! ### Lemmas about the stroke-points invariant -/

theorem ptsOk_nil : PtsOk [] := by
  intro st hst
  simp at hst

theorem ptsOk_subset {l l2 : List Stroke} (h : PtsOk l)
    (hsub : ∀ x ∈ l2, x ∈ l) : PtsOk l2 :=
  fun st hst => h st (hsub st hst)

/-- The invariant `PtsInv` only looks at these five projections. -/
theorem ptsInv_of_eq {s s2 : Srv} (hInv : PtsInv s)
    (h1 : s2.strokes = s.strokes)
    (h2 : s2.recS.snapshot = s.recS.snapshot)
    (h3 : s2.rep.preSnap = s.rep.preSnap)
    (h4 : s2.recordings = s.recordings)
    (h5 : s2.boardPresets = s.boardPresets) : PtsInv s2 := by
  unfold PtsInv at hInv ⊢
  rw [h1, h2, h3, h4, h5]
  exact hInv

/-- Every event-loop turn whose `stroke-done` payload (if any) has at
least two points preserves the stroke-points invariant. -/
theorem ptsInv_step (e : Ev) (s : Srv) (hg : goodStrokeEv e)
    (h : PtsInv s) : PtsInv (stepS s e) := by
  obtain ⟨hs, hsr, hsp, hsR, hsP⟩ := h
  cases e with
  | strokeDone o n st =>
    refine ⟨?_, ?_, ?_, ?_, ?_⟩ <;> simp [stepS, step, hStrokeDone]
    · intro stk hstk
      rcases List.mem_append.mp hstk with hstk | hstk
      · exact hs stk hstk
      · simp at hstk
        rw [hstk]
        exact hg
    · exact hsr
    · exact hsp
    · exact hsR
    · exact hsP
  | strokeRemove n ids =>
    refine ⟨?_, ?_, ?_, ?_, ?_⟩ <;> simp [stepS, step, hStrokeRemove]
    · exact ptsOk_subset hs (foldl_removeFirstStroke_subset ids s.strokes)
    · exact hsr
    · exact hsp
    · exact hsR
    · exact hsP
  | tokenAdd n tok =>
    refine ptsInv_of_eq ⟨hs, hsr, hsp, hsR, hsP⟩ ?_ ?_ ?_ ?_ ?_ <;>
      simp [stepS, step, hTokenAdd]
  | tokenMove n id x y =>
    cases hfind : findToken s.tokens id with
    | none =>
      simp [stepS, step, hTokenMove, hfind]
      exact ⟨hs, hsr, hsp, hsR, hsP⟩
    | some t0 =>
      refine ptsInv_of_eq ⟨hs, hsr, hsp, hsR, hsP⟩ ?_ ?_ ?_ ?_ ?_ <;>
        simp [stepS, step, hTokenMove, hfind]
  | tokenRemove n id =>
    refine ptsInv_of_eq ⟨hs, hsr, hsp, hsR, hsP⟩ ?_ ?_ ?_ ?_ ?_ <;>
      simp [stepS, step, hTokenRemove]
  | tokenRelabel n id lb =>
    refine ptsInv_of_eq ⟨hs, hsr, hsp, hsR, hsP⟩ ?_ ?_ ?_ ?_ ?_ <;>
      simp [stepS, step, hTokenRelabel]
  | arrowDone o n arrow =>
    refine ptsInv_of_eq ⟨hs, hsr, hsp, hsR, hsP⟩ ?_ ?_ ?_ ?_ ?_ <;>
      simp [stepS, step, hArrowDone]
  | arrowRemove n ids =>
    refine ptsInv_of_eq ⟨hs, hsr, hsp, hsR, hsP⟩ ?_ ?_ ?_ ?_ ?_ <;>
      simp [stepS, step, hArrowRemove]
  | clearBoard n =>
    refine ⟨?_, ?_, ?_, ?_, ?_⟩ <;> simp [stepS, step, hClearBoard]
    · exact ptsOk_nil
    · exact hsr
    · exact hsp
    · exact hsR
    · exact hsP
  | clearDrawings n =>
    refine ⟨?_, ?_, ?_, ?_, ?_⟩ <;> simp [stepS, step, hClearDrawings]
    · exact ptsOk_nil
    · exact hsr
    · exact hsp
    · exact hsR
    · exact hsP
  | recordingStart n =>
    by_cases hc : (s.recS.active || s.rep.active) = true
    · simp [stepS, step, hRecordingStart, hc]
      exact ⟨hs, hsr, hsp, hsR, hsP⟩
    · refine ⟨?_, ?_, ?_, ?_, ?_⟩ <;>
        simp [stepS, step, hRecordingStart, hc, snapState]
      · exact hs
      · exact hs
      · exact hsp
      · exact hsR
      · exact hsP
  | recordingStop n =>
    by_cases hc : s.recS.active = true
    · refine ⟨?_, ?_, ?_, ?_, ?_⟩ <;>
        simp [stepS, step, hRecordingStop, hc]
      · exact hs
      · exact hsr
      · exact hsp
      · intro r hr
        rcases hr with hr | hr
        · exact hsR r hr
        · rw [hr]
          exact hsr
      · exact hsP
    · simp [stepS, step, hRecordingStop, hc]
      exact ⟨hs, hsr, hsp, hsR, hsP⟩
  | replayStart recId =>
    by_cases hc : s.rep.active = true
    · simp [stepS, step, hReplayStart, hc]
      exact ⟨hs, hsr, hsp, hsR, hsP⟩
    · cases hfind : s.recordings.find? (fun r => r.id == recId) with
      | none =>
        simp [stepS, step, hReplayStart, hc, hfind]
        exact ⟨hs, hsr, hsp, hsR, hsP⟩
      | some recording =>
        have hmem := List.mem_of_find?_eq_some hfind
        refine ⟨?_, ?_, ?_, ?_, ?_⟩ <;>
          simp [stepS, step, hReplayStart, hc, hfind, snapState]
        · exact hsR recording hmem
        · exact hsr
        · exact hs
        · exact hsR
        · exact hsP
  | replayStop =>
    by_cases hc : s.rep.active = true
    · refine ⟨?_, ?_, ?_, ?_, ?_⟩ <;>
        simp [stepS, step, hReplayStop, hc, finishReplay]
      · exact hsp
      · exact hsr
      · exact hsp
      · exact hsR
      · exact hsP
    · simp [stepS, step, hReplayStop, hc]
      exact ⟨hs, hsr, hsp, hsR, hsP⟩
  | timerFire =>
    cases htm : s.rep.timers with
    | nil =>
      simp [stepS, step, fireTimer, htm]
      exact ⟨hs, hsr, hsp, hsR, hsP⟩
    | cons t rest =>
      cases t with
      | emitT time ev d =>
        refine ptsInv_of_eq ⟨hs, hsr, hsp, hsR, hsP⟩ ?_ ?_ ?_ ?_ ?_ <;>
          simp [stepS, step, fireTimer, htm]
      | finishT time =>
        refine ⟨?_, ?_, ?_, ?_, ?_⟩ <;>
          simp [stepS, step, fireTimer, htm, finishReplay]
        · exact hsp
        · exact hsr
        · exact hsp
        · exact hsR
        · exact hsP
  | replayInitFire =>
    cases hpi : s.pendingInit with
    | nil =>
      simp [stepS, step, fireInit, hpi]
      exact ⟨hs, hsr, hsp, hsR, hsP⟩
    | cons q rest =>
      obtain ⟨qt, qp⟩ := q
      refine ptsInv_of_eq ⟨hs, hsr, hsp, hsR, hsP⟩ ?_ ?_ ?_ ?_ ?_ <;>
        simp [stepS, step, fireInit, hpi]
  | getRecordings =>
    simp only [stepS, step, hGetRecordings]
    exact ⟨hs, hsr, hsp, hsR, hsP⟩
  | renameRecording recId nn =>
    by_cases hc : (s.recordings.find? (fun r => r.id == recId)).isSome = true
    · refine ⟨?_, ?_, ?_, ?_, ?_⟩ <;>
        simp [stepS, step, hRenameRecording, hc]
      · exact hs
      · exact hsr
      · exact hsp
      · intro r hr
        obtain ⟨r0, hr0, hsnap⟩ := renameRec_mem s.recordings recId nn r hr
        rw [hsnap]
        exact hsR r0 hr0
      · exact hsP
    · simp [stepS, step, hRenameRecording, hc]
      exact ⟨hs, hsr, hsp, hsR, hsP⟩
  | deleteRecording recId =>
    by_cases hc : (s.recordings.find? (fun r => r.id == recId)).isSome = true
    · refine ⟨?_, ?_, ?_, ?_, ?_⟩ <;>
        simp [stepS, step, hDeleteRecording, hc]
      · exact hs
      · exact hsr
      · exact hsp
      · intro r hr
        exact hsR r (removeFirstRec_subset s.recordings recId r hr)
      · exact hsP
    · simp [stepS, step, hDeleteRecording, hc]
      exact ⟨hs, hsr, hsp, hsR, hsP⟩
  | savePreset n nm =>
    refine ⟨?_, ?_, ?_, ?_, ?_⟩ <;> simp [stepS, step, hSavePreset]
    · exact hs
    · exact hsr
    · exact hsp
    · exact hsR
    · intro p hp
      rcases hp with hp | hp
      · exact hsP p hp
      · rw [hp]
        exact hs
  | loadPreset pid =>
    cases hfind : s.boardPresets.find? (fun p => p.id == pid) with
    | none =>
      simp [stepS, step, hLoadPreset, hfind]
      exact ⟨hs, hsr, hsp, hsR, hsP⟩
    | some preset =>
      have hmem := List.mem_of_find?_eq_some hfind
      refine ⟨?_, ?_, ?_, ?_, ?_⟩ <;>
        simp [stepS, step, hLoadPreset, hfind]
      · exact hsP preset hmem
      · exact hsr
      · exact hsp
      · exact hsR
      · exact hsP
  | renamePreset pid nn =>
    by_cases hc : (s.boardPresets.find? (fun p => p.id == pid)).isSome = true
    · refine ⟨?_, ?_, ?_, ?_, ?_⟩ <;>
        simp [stepS, step, hRenamePreset, hc]
      · exact hs
      · exact hsr
      · exact hsp
      · exact hsR
      · intro p hp
        obtain ⟨p0, hp0, he1, he2, he3⟩ := renamePre_mem s.boardPresets pid nn p hp
        rw [he3]
        exact hsP p0 hp0
    · simp [stepS, step, hRenamePreset, hc]
      exact ⟨hs, hsr, hsp, hsR, hsP⟩
  | deletePreset pid =>
    by_cases hc : (s.boardPresets.find? (fun p => p.id == pid)).isSome = true
    · refine ⟨?_, ?_, ?_, ?_, ?_⟩ <;>
        simp [stepS, step, hDeletePreset, hc]
      · exact hs
      · exact hsr
      · exact hsp
      · exact hsR
      · intro p hp
        exact hsP p (removeFirstPre_subset s.boardPresets pid p hp)
    · simp [stepS, step, hDeletePreset, hc]
      exact ⟨hs, hsr, hsp, hsR, hsP⟩
  | getPresets =>
    simp only [stepS, step, hGetPresets]
    exact ⟨hs, hsr, hsp, hsR, hsP⟩

/-- The initial state satisfies the stroke-points invariant. -/
theorem ptsInv_init : PtsInv srvInit := by
  refine ⟨ptsOk_nil, ptsOk_nil, ptsOk_nil, ?_, ?_⟩ <;>
    intro x hx <;> simp [srvInit] at hx

/-- The stroke-points invariant holds along every run whose stroke-done
payloads all have at least two points. -/
theorem ptsInv_run (es : List Ev) (s : Srv) (hg : ∀ e ∈ es, goodStrokeEv e)
    (h : PtsInv s) : PtsInv (run es s) := by
  induction es generalizing s with
  | nil => simpa [run] using h
  | cons e rest ih =>
    rw [run_cons]
    exact ih _ (fun x hx => hg x (by simp [hx]))
      (ptsInv_step e s (hg e (by simp)) h)

/-! ### C9 — strokes retain at least two points -/

/-- C9: the repository's client emits a `stroke-done` only when the
captured path has at least two points (so any emitted stroke has
`points.length ≥ 2`), and along every run all of whose `stroke-done`
payloads satisfy that bound — which the client guarantees — every stroke
retained in the document store has at least two points. -/
theorem c9_stroke_points_invariant (es : List Ev)
    (hg : ∀ e ∈ es, goodStrokeEv e)
    (myId tool color : String) (strokeSeq width : Nat) (path : List Point)
    (st : Stroke)
    (hc : clientStrokeDone myId strokeSeq tool path color width = some st) :
    2 ≤ st.points.length ∧
    ∀ stk ∈ (run es srvInit).strokes, 2 ≤ stk.points.length := by
  constructor
  · unfold clientStrokeDone at hc
    by_cases hp : 2 ≤ path.length
    · rw [if_pos hp] at hc
      have hinj := Option.some.inj hc
      rw [← hinj]
      simpa using hp
    · rw [if_neg hp] at hc
      exact absurd hc (by simp)
  · exact (ptsInv_run es srvInit hg ptsInv_init).1

/-- Witness for C9: the concrete client emission with a two-point path
and a run containing that one stroke-done. -/
theorem c9_stroke_points_invariant_witness :
    2 ≤ strokeExEmit.points.length ∧
    ∀ stk ∈ (run [Ev.strokeDone "c1" 5 strokeEx] srvInit).strokes,
      2 ≤ stk.points.length :=
  c9_stroke_points_invariant [Ev.strokeDone "c1" 5 strokeEx]
    (by
      intro e he
      rw [List.mem_singleton] at he
      subst he
      show 2 ≤ strokeEx.points.length
      decide)
    "c1" "draw" "blue" 0 3 [⟨0, 0⟩, ⟨5, 5⟩] strokeExEmit rfl

/-! ### C1 — stopping a replay restores the pre-replay snapshot -/

/-- While a replay stays active across one turn, the pre-replay snapshot
is untouched. -/
theorem step_preSnap_of_active (e : Ev) (s : Srv) (h : s.rep.active = true)
    (h2 : (stepS s e).rep.active = true) :
    (stepS s e).rep.preSnap = s.rep.preSnap := by
  cases e with
  | strokeDone o n st => simp [stepS, step, hStrokeDone]
  | strokeRemove n ids => simp [stepS, step, hStrokeRemove]
  | tokenAdd n tok => simp [stepS, step, hTokenAdd]
  | tokenMove n id x y =>
    cases hfind : findToken s.tokens id with
    | none => simp [stepS, step, hTokenMove, hfind]
    | some t0 => simp [stepS, step, hTokenMove, hfind]
  | tokenRemove n id => simp [stepS, step, hTokenRemove]
  | tokenRelabel n id lb => simp [stepS, step, hTokenRelabel]
  | arrowDone o n arrow => simp [stepS, step, hArrowDone]
  | arrowRemove n ids => simp [stepS, step, hArrowRemove]
  | clearBoard n => simp [stepS, step, hClearBoard]
  | clearDrawings n => simp [stepS, step, hClearDrawings]
  | recordingStart n => simp [stepS, step, hRecordingStart, h]
  | recordingStop n =>
    by_cases hc : s.recS.active = true <;>
      simp [stepS, step, hRecordingStop, hc]
  | replayStart recId => simp [stepS, step, hReplayStart, h]
  | replayStop =>
    rw [stepS, step, hReplayStop, if_pos h] at h2 ⊢
    simp [finishReplay] at h2
  | timerFire =>
    cases htm : s.rep.timers with
    | nil => simp [stepS, step, fireTimer, htm]
    | cons t rest =>
      cases t with
      | emitT time ev d => simp [stepS, step, fireTimer, htm]
      | finishT time =>
        rw [stepS, step] at h2 ⊢
        unfold fireTimer at h2 ⊢
        rw [htm] at h2 ⊢
        simp [finishReplay] at h2
  | replayInitFire =>
    cases hpi : s.pendingInit with
    | nil => simp [stepS, step, fireInit, hpi]
    | cons q rest =>
      obtain ⟨qt, qp⟩ := q
      simp [stepS, step, fireInit, hpi]
  | getRecordings => simp [stepS, step, hGetRecordings]
  | renameRecording recId nn =>
    by_cases hc : (s.recordings.find? (fun r => r.id == recId)).isSome = true <;>
      simp [stepS, step, hRenameRecording, hc]
  | deleteRecording recId =>
    by_cases hc : (s.recordings.find? (fun r => r.id == recId)).isSome = true <;>
      simp [stepS, step, hDeleteRecording, hc]
  | savePreset n nm => simp [stepS, step, hSavePreset]
  | loadPreset pid =>
    cases hfind : s.boardPresets.find? (fun p => p.id == pid) with
    | none => simp [stepS, step, hLoadPreset, hfind]
    | some preset => simp [stepS, step, hLoadPreset, hfind]
  | renamePreset pid nn =>
    by_cases hc : (s.boardPresets.find? (fun p => p.id == pid)).isSome = true <;>
      simp [stepS, step, hRenamePreset, hc]
  | deletePreset pid =>
    by_cases hc : (s.boardPresets.find? (fun p => p.id == pid)).isSome = true <;>
      simp [stepS, step, hDeletePreset, hc]
  | getPresets => simp [stepS, step, hGetPresets]

/-- While a replay stays active along a run (every prefix leaves it
active), the pre-replay snapshot is untouched. -/
theorem run_preSnap_of_active (es : List Ev) (s : Srv)
    (h : s.rep.active = true)
    (hall : ∀ p, p <+: es → (run p s).rep.active = true) :
    (run es s).rep.preSnap = s.rep.preSnap := by
  induction es generalizing s with
  | nil => simp [run]
  | cons e rest ih =>
    have h1 : (stepS s e).rep.active = true := hall [e] ⟨rest, rfl⟩
    rw [run_cons]
    rw [ih (stepS s e) h1 ?_]
    · exact step_preSnap_of_active e s h h1
    · intro p hp
      obtain ⟨tail, htail⟩ := hp
      exact hall (e :: p) ⟨tail, by simp [htail]⟩

/-- C1: after a successful `replay-start` and any further activity during
which the replay stays in flight, a `replay-stop` cancels every
still-pending scheduled timer, restores the document store to exactly the
state captured immediately before the replay started (not the recording's
base snapshot), broadcasts a board-clear, a hydration of the restored
snapshot and the `replay-done` completion signal, and leaves the replay
engine idle; reaching the scheduled terminal timer runs the identical
procedure. -/
theorem c1_replay_stop_restores (s0 : Srv) (recId : Nat) (r : Recording)
    (es : List Ev)
    (h0 : s0.rep.active = false)
    (hr : s0.recordings.find? (fun x => x.id == recId) = some r)
    (hact : ∀ p, p <+: es →
      (run p (stepS s0 (Ev.replayStart recId))).rep.active = true) :
    let s2 := run es (stepS s0 (Ev.replayStart recId))
    (hReplayStop s2).1.rep.timers = [] ∧
    (hReplayStop s2).1.rep.active = false ∧
    (hReplayStop s2).1.rep.currentRecId = none ∧
    (hReplayStop s2).1.strokes = s0.strokes ∧
    (hReplayStop s2).1.arrows = s0.arrows ∧
    (hReplayStop s2).1.tokens = s0.tokens ∧
    (hReplayStop s2).2 =
      [⟨Target.all, "clear-board", Payload.pEmpty⟩,
       ⟨Target.all, "tokens-cleared", Payload.pEmpty⟩,
       ⟨Target.all, "replay-restore",
        Payload.pSnap s0.strokes s0.arrows s0.tokens⟩,
       ⟨Target.all, "replay-done", Payload.pEmpty⟩] ∧
    (∀ T rest, s2.rep.timers = Task.finishT T :: rest →
      fireTimer s2 = hReplayStop s2) := by
  intro s2
  have h1 : (stepS s0 (Ev.replayStart recId)).rep.active = true := by
    simp [stepS, step, hReplayStart, h0, hr]
  have hpre1 : (stepS s0 (Ev.replayStart recId)).rep.preSnap
      = snapState s0 := by
    simp [stepS, step, hReplayStart, h0, hr]
  have hact2 : s2.rep.active = true := hact es ⟨[], by simp⟩
  have hpre2 : s2.rep.preSnap = snapState s0 := by
    show (run es (stepS s0 (Ev.replayStart recId))).rep.preSnap = snapState s0
    rw [run_preSnap_of_active es _ h1 hact, hpre1]
  have hstop : hReplayStop s2 = finishReplay s2 := by
    rw [hReplayStop, if_pos hact2]
  refine ⟨?_, ?_, ?_, ?_, ?_, ?_, ?_, ?_⟩
  · rw [hstop]
    simp [finishReplay]
  · rw [hstop]
    simp [finishReplay]
  · rw [hstop]
    simp [finishReplay]
  · rw [hstop]
    simp [finishReplay, hpre2, snapState]
  · rw [hstop]
    simp [finishReplay, hpre2, snapState]
  · rw [hstop]
    simp [finishReplay, hpre2, snapState]
  · rw [hstop]
    simp [finishReplay, hpre2, snapState]
  · intro T rest htm
    rw [hstop]
    have hfire : fireTimer s2
        = finishReplay { s2 with rep := { s2.rep with timers := rest } } := by
      simp [fireTimer, htm]
    rw [hfire]
    simp [finishReplay]

/-- Witness for C1: the idle state `sIdleWithRec` starts replaying its
saved recording 1 and is stopped immediately. -/
theorem c1_replay_stop_restores_witness :
    let s2 := run [] (stepS sIdleWithRec (Ev.replayStart 1))
    (hReplayStop s2).1.rep.timers = [] ∧
    (hReplayStop s2).1.rep.active = false ∧
    (hReplayStop s2).1.rep.currentRecId = none ∧
    (hReplayStop s2).1.strokes = sIdleWithRec.strokes ∧
    (hReplayStop s2).1.arrows = sIdleWithRec.arrows ∧
    (hReplayStop s2).1.tokens = sIdleWithRec.tokens ∧
    (hReplayStop s2).2 =
      [⟨Target.all, "clear-board", Payload.pEmpty⟩,
       ⟨Target.all, "tokens-cleared", Payload.pEmpty⟩,
       ⟨Target.all, "replay-restore",
        Payload.pSnap sIdleWithRec.strokes sIdleWithRec.arrows
          sIdleWithRec.tokens⟩,
       ⟨Target.all, "replay-done", Payload.pEmpty⟩] ∧
    (∀ T rest, s2.rep.timers = Task.finishT T :: rest →
      fireTimer s2 = hReplayStop s2) :=
  c1_replay_stop_restores sIdleWithRec 1 recEx [] rfl rfl
    (by
      intro p hp
      obtain ⟨t, ht⟩ := hp
      obtain ⟨hp1, ht1⟩ := List.append_eq_nil.mp ht
      rw [hp1]
      rfl)

/-! ### C3 — replay determinism for stroke operations -/

theorem find?_append_none {α : Type} (p : α → Bool) (l1 l2 : List α)
    (h : l1.find? p = none) : (l1 ++ l2).find? p = l2.find? p := by
  induction l1 with
  | nil => simp
  | cons x rest ih =>
    rw [List.find?_cons] at h
    rcases hx : p x with hfalse | htrue
    · rw [hx] at h
      simp only [List.cons_append, List.find?_cons, hx]
      exact ih h
    · rw [hx] at h
      simp at h

/-- Running the events of a list of stroke operations applies exactly
those operations to the stroke collection and leaves every component the
replay path depends on untouched. -/
theorem ops_effect (ops : List StrokeOp) (s : Srv) :
    (run (ops.map opEv) s).strokes = ops.foldl applyOp s.strokes ∧
    (run (ops.map opEv) s).arrows = s.arrows ∧
    (run (ops.map opEv) s).tokens = s.tokens ∧
    (run (ops.map opEv) s).recS.active = s.recS.active ∧
    (run (ops.map opEv) s).recS.snapshot = s.recS.snapshot ∧
    (run (ops.map opEv) s).rep = s.rep ∧
    (run (ops.map opEv) s).recordings = s.recordings ∧
    (run (ops.map opEv) s).nextRecId = s.nextRecId := by
  induction ops generalizing s with
  | nil => simp [run]
  | cons op rest ih =>
    simp only [List.map_cons, run_cons, List.foldl_cons]
    obtain ⟨e1, e2, e3, e4, e5, e6, e7, e8⟩ := ih (stepS s (opEv op))
    cases op with
    | add o n st =>
      have hstr : (stepS s (opEv (StrokeOp.add o n st))).strokes
          = applyOp s.strokes (StrokeOp.add o n st) := by
        simp [opEv, applyOp, stepS, step, hStrokeDone]
      exact ⟨by rw [e1, hstr],
        by rw [e2]; simp [opEv, stepS, step, hStrokeDone],
        by rw [e3]; simp [opEv, stepS, step, hStrokeDone],
        by rw [e4]; simp [opEv, stepS, step, hStrokeDone],
        by rw [e5]; simp [opEv, stepS, step, hStrokeDone],
        by rw [e6]; simp [opEv, stepS, step, hStrokeDone],
        by rw [e7]; simp [opEv, stepS, step, hStrokeDone],
        by rw [e8]; simp [opEv, stepS, step, hStrokeDone]⟩
    | remove n ids =>
      have hstr : (stepS s (opEv (StrokeOp.remove n ids))).strokes
          = applyOp s.strokes (StrokeOp.remove n ids) := by
        simp [opEv, applyOp, stepS, step, hStrokeRemove]
      exact ⟨by rw [e1, hstr],
        by rw [e2]; simp [opEv, stepS, step, hStrokeRemove],
        by rw [e3]; simp [opEv, stepS, step, hStrokeRemove],
        by rw [e4]; simp [opEv, stepS, step, hStrokeRemove],
        by rw [e5]; simp [opEv, stepS, step, hStrokeRemove],
        by rw [e6]; simp [opEv, stepS, step, hStrokeRemove],
        by rw [e7]; simp [opEv, stepS, step, hStrokeRemove],
        by rw [e8]; simp [opEv, stepS, step, hStrokeRemove]⟩

/-- Firing every scheduled replay timer (the per-entry re-emissions in
order, then the terminal callback) ends the replay and restores the
pre-replay snapshot. -/
theorem fire_all (l : List Task) (T : Nat) (s : Srv)
    (hl : ∀ t ∈ l, ∃ time ev d, t = Task.emitT time ev d)
    (htm : s.rep.timers = l ++ [Task.finishT T]) :
    (run (List.replicate (l.length + 1) Ev.timerFire) s).strokes
      = s.rep.preSnap.strokes ∧
    (run (List.replicate (l.length + 1) Ev.timerFire) s).arrows
      = s.rep.preSnap.arrows ∧
    (run (List.replicate (l.length + 1) Ev.timerFire) s).tokens
      = s.rep.preSnap.tokens ∧
    (run (List.replicate (l.length + 1) Ev.timerFire) s).rep.active
      = false := by
  induction l generalizing s with
  | nil =>
    refine ⟨?_, ?_, ?_, ?_⟩ <;>
      simp [run, stepS, step, fireTimer, htm, finishReplay,
        List.replicate_succ]
  | cons t rest ih =>
    obtain ⟨time, ev, d, rfl⟩ := hl t (by simp)
    have hstep : stepS s Ev.timerFire
        = { s with rep := { s.rep with
              timers := rest ++ [Task.finishT T] } } := by
      simp [stepS, step, fireTimer, htm]
    have hlen : (Task.emitT time ev d :: rest).length + 1
        = (rest.length + 1) + 1 := by simp
    rw [hlen, List.replicate_succ, run_cons, hstep]
    obtain ⟨c1, c2, c3, c4⟩ := ih
      { s with rep := { s.rep with timers := rest ++ [Task.finishT T] } }
      (fun x hx => hl x (by simp [hx])) (by simp)
    exact ⟨c1, c2, c3, c4⟩

/-- C3: record a sequence of stroke operations over the current store,
stop, and immediately replay the stored recording to completion: the
final stroke collection equals the result of applying the same sequence
of operations directly to the recording's base snapshot (which is the
store at recording start). -/
theorem c3_replay_determinism (s0 : Srv) (ops : List StrokeOp) (t0 t1 : Nat)
    (h1 : s0.recS.active = false) (h2 : s0.rep.active = false)
    (h3 : ∀ r ∈ s0.recordings, r.id ≠ s0.nextRecId) :
    let s3 := run (Ev.recordingStart t0
      :: (ops.map opEv ++ [Ev.recordingStop t1])) s0
    let s4 := stepS s3 (Ev.replayStart s0.nextRecId)
    let s5 := run (List.replicate s4.rep.timers.length Ev.timerFire) s4
    s3.recordings.getLast?.map (fun r => r.snapshot.strokes)
      = some s0.strokes ∧
    s5.strokes = ops.foldl applyOp s0.strokes := by
  intro s3 s4 s5
  have hs1 : stepS s0 (Ev.recordingStart t0)
      = { s0 with recS := { active := true, start := t0,
                            snapshot := snapState s0,
                            timeline := [] } } := by
    simp [stepS, step, hRecordingStart, h1, h2]
  obtain ⟨e1, e2, e3, e4, e5, e6, e7, e8⟩ :=
    ops_effect ops (stepS s0 (Ev.recordingStart t0))
  rw [hs1] at e1 e2 e3 e4 e5 e6 e7 e8
  set s2 := run (ops.map opEv)
    { s0 with recS := { active := true, start := t0,
                        snapshot := snapState s0,
                        timeline := [] } } with hs2def
  have hs2act : s2.recS.active = true := e4
  have hs3run : s3 = stepS s2 (Ev.recordingStop t1) := by
    show run (Ev.recordingStart t0
      :: (ops.map opEv ++ [Ev.recordingStop t1])) s0 = _
    rw [run_cons, run_append, hs1]
    rfl
  have hrecs3 : s3.recordings = s2.recordings
      ++ [{ id := s2.nextRecId, name := "Recording", timestamp := t1,
            duration := recDuration s2.recS.timeline,
            eventCount := s2.recS.timeline.length,
            snapshot := s2.recS.snapshot,
            timeline := s2.recS.timeline }] := by
    rw [hs3run]
    simp [stepS, step, hRecordingStop, hs2act]
  have hstr3 : s3.strokes = s2.strokes := by
    rw [hs3run]
    simp [stepS, step, hRecordingStop, hs2act]
  have hrep3 : s3.rep = s2.rep := by
    rw [hs3run]
    simp [stepS, step, hRecordingStop, hs2act]
  have hrep3act : s3.rep.active = false := by
    rw [hrep3, e6]
    exact h2
  have hnone : s0.recordings.find?
      (fun r => r.id == s0.nextRecId) = none :=
    List.find?_eq_none.mpr (fun r hr => by simpa using h3 r hr)
  have hfind : s3.recordings.find? (fun r => r.id == s0.nextRecId)
      = some { id := s2.nextRecId, name := "Recording", timestamp := t1,
               duration := recDuration s2.recS.timeline,
               eventCount := s2.recS.timeline.length,
               snapshot := s2.recS.snapshot,
               timeline := s2.recS.timeline } := by
    rw [hrecs3, e7, find?_append_none _ _ _ hnone]
    simp [e8]
  have hs4timers : s4.rep.timers
      = s2.recS.timeline.map
          (fun e => Task.emitT (e.t + 350) e.event e.data)
        ++ [Task.finishT (recDuration s2.recS.timeline + 900)] := by
    show (stepS s3 (Ev.replayStart s0.nextRecId)).rep.timers = _
    simp [stepS, step, hReplayStart, hrep3act, hfind]
  have hs4pre : s4.rep.preSnap = snapState s3 := by
    show (stepS s3 (Ev.replayStart s0.nextRecId)).rep.preSnap = _
    simp [stepS, step, hReplayStart, hrep3act, hfind]
  have hlen : s4.rep.timers.length
      = (s2.recS.timeline.map
          (fun e => Task.emitT (e.t + 350) e.event e.data)).length + 1 := by
    rw [hs4timers]
    simp
  constructor
  · rw [hrecs3, List.getLast?_concat]
    simp [e5, snapState]
  · show (run (List.replicate s4.rep.timers.length Ev.timerFire) s4).strokes
      = ops.foldl applyOp s0.strokes
    rw [hlen]
    have hfire := fire_all
      (s2.recS.timeline.map (fun e => Task.emitT (e.t + 350) e.event e.data))
      (recDuration s2.recS.timeline + 900) s4
      (by
        intro t ht
        rcases List.mem_map.mp ht with ⟨en, hen, he⟩
        exact ⟨en.t + 350, en.event, en.data, he.symm⟩)
      hs4timers
    rw [hfire.1, hs4pre]
    show s3.strokes = _
    rw [hstr3, e1]

/-- Witness for C3: from the initial state, record one stroke-done and
one stroke-remove and replay the stored recording to completion. -/
theorem c3_replay_determinism_witness :
    let s3 := run (Ev.recordingStart 5
      :: ([StrokeOp.add "c1" 10 strokeEx,
           StrokeOp.remove 20 ["c1-1"]].map opEv
          ++ [Ev.recordingStop 30])) srvInit
    let s4 := stepS s3 (Ev.replayStart srvInit.nextRecId)
    let s5 := run (List.replicate s4.rep.timers.length Ev.timerFire) s4
    s3.recordings.getLast?.map (fun r => r.snapshot.strokes)
      = some srvInit.strokes ∧
    s5.strokes = [StrokeOp.add "c1" 10 strokeEx,
                  StrokeOp.remove 20 ["c1-1"]].foldl applyOp
        srvInit.strokes :=
  c3_replay_determinism srvInit
    [StrokeOp.add "c1" 10 strokeEx, StrokeOp.remove 20 ["c1-1"]] 5 30
    rfl rfl (by intro r hr; simp [srvInit] at hr)

end TacBoard
